import Mathlib

/-!
# PROPOSAL: utility interpolant, pair-production dE/dx and cross-section factories

A shallow embedding of

* `UtilityInterpolant` (`PropagationUtilityInterpolant.cxx`),
* `EpairInterpolant::CalculatedEdx` (`EpairInterpolant.cxx`),
* `PhotoPairFactory` and `WeakInteractionFactory` (`factories/*.cxx`),
* the members, getters and `SetCurrentComponent` of `Parametrization`
  (`Parametrization.h`),
* the comparison operators and constructors exercised by `Photonuclear_TEST.cxx`,
  which are defined outside the sources and modelled from the specification.

Conventions of the embedding.

* A C++ `double` is an exact rational number (`ℚ`): the theorems are about the
  branch structure and the algebra of the code, not about rounding.  A quotient
  by zero (`inf`/`NaN` in C++) has no counterpart; `x / 0` is `0` in `ℚ`.
* A call that does not return normally yields `Except.error` with the reason.
* Mutable members are passed explicitly: a method returns its value together
  with the object after the call.
-/

set_option linter.dupNamespace false

namespace PROPOSAL

/-- Reasons for which a call does not return a value. -/
inductive Failure where
  /-- An `assert(...)` evaluated to false. -/
  | assertion
  /-- A null pointer was dereferenced (`interpolant_` before `BuildTables`,
  a `NULL` distribution). -/
  | nullPointer
  /-- The call ended in `log_fatal(...)`. -/
  | configurationError
  /-- Control reached the end of a value-returning function without `return`. -/
  | missingReturn
  deriving DecidableEq, Repr

deriving instance DecidableEq for Except

/-! ## Interpolation tables -/

/-- The two operations of `Interpolant` used by the callers in this development:
forward lookup `Interpolate(x)` and inverse lookup `FindLimit(y)`.  The class
itself (`math/Interpolant.h`) is outside the sources at hand, so a table is given
by these two functions. -/
structure Interpolant where
  Interpolate : ℚ → ℚ
  FindLimit : ℚ → ℚ

/-! ## UtilityInterpolant -/

/-- The members of `UtilityInterpolant`: the integrand `FunctionToIntegral`
(`func`), `lower_lim`, the table pointer `interpolant_` (`nullptr` until
`BuildTables`), and the single-slot memo `upper_limit`, a pair
(cumulative value, energy). -/
structure UtilityInterpolant where
  FunctionToIntegral : ℚ → ℚ
  lower_lim : ℚ
  interpolant_ : Option Interpolant
  upper_limit : ℚ × ℚ

namespace UtilityInterpolant

/-- Embeds `UtilityInterpolant::BuildTables`: installs the table produced by
`InitializeInterpolation`; the builder is outside the sources at hand, so the
built table is an argument.  The memo is not touched. -/
def BuildTables (u : UtilityInterpolant) (table : Interpolant) : UtilityInterpolant :=
  { u with interpolant_ := some table }

/-- Embeds `UtilityInterpolant::Calculate(energy_initial, energy_final, rnd)`.
`IPREC` is the constant of `Constants.h`. -/
def Calculate (IPREC : ℚ) (u : UtilityInterpolant)
    (energy_initial energy_final _rnd : ℚ) : Except Failure (ℚ × UtilityInterpolant) :=
  if ¬ (energy_initial ≥ energy_final) then .error .assertion
  else if ¬ (energy_final ≥ u.lower_lim) then .error .assertion
  else
    match u.interpolant_ with
    | none => .error .nullPointer
    | some table =>
      let u1 : UtilityInterpolant :=
        { u with upper_limit := (table.Interpolate energy_initial, energy_initial) }
      if energy_initial - energy_final < energy_initial * IPREC then
        .ok (u1.FunctionToIntegral ((energy_initial + energy_initial) / 2)
              * (energy_final - energy_initial), u1)
      else
        .ok (u1.upper_limit.1 - table.Interpolate energy_final, u1)

/-- Embeds `UtilityInterpolant::GetUpperLimit(energy_initial, rnd)`. -/
def GetUpperLimit (IPREC : ℚ) (u : UtilityInterpolant)
    (energy_initial rnd : ℚ) : Except Failure (ℚ × UtilityInterpolant) :=
  if ¬ (rnd ≥ 0) then .error .assertion
  else
    let afterCalculate : Except Failure UtilityInterpolant :=
      if energy_initial ≠ u.upper_limit.2 then
        match Calculate IPREC u energy_initial u.lower_lim rnd with
        | .error e => .error e
        | .ok (_, u1) => .ok u1
      else .ok u
    match afterCalculate with
    | .error e => .error e
    | .ok u1 =>
      match u1.interpolant_ with
      | none => .error .nullPointer
      | some table =>
        let lower_limit := table.FindLimit (u1.upper_limit.1 - rnd)
        if energy_initial - lower_limit > energy_initial * IPREC then
          .ok (lower_limit, u1)
        else
          let initial_step :=
            energy_initial + 0.5 * rnd / u1.FunctionToIntegral energy_initial
          .ok (energy_initial + rnd / u1.FunctionToIntegral initial_step, u1)

/-- The memo agrees with the installed table at the energy it holds. -/
def MemoConsistent (u : UtilityInterpolant) : Prop :=
  ∀ table, u.interpolant_ = some table →
    u.upper_limit.1 = table.Interpolate u.upper_limit.2

end UtilityInterpolant

/-! ### Concrete objects used to evaluate the code -/

/-- The identity table: cumulative value `x` at energy `x`. -/
def idTable : Interpolant := { Interpolate := fun x => x, FindLimit := fun y => y }

/-- A decreasing table, `x ↦ -x`, with its exact inverse. -/
def negTable : Interpolant := { Interpolate := fun x => -x, FindLimit := fun y => -y }

/-- An interpolant over `[1, ∞)` with integrand `E ↦ E`, the identity table and a
memo holding a different energy. -/
def sampleUtility : UtilityInterpolant :=
  { FunctionToIntegral := fun E => E, lower_lim := 1,
    interpolant_ := some idTable, upper_limit := (3, 3) }

/-- An interpolant whose lower limit is negative, with a decreasing table. -/
def negativeUtility : UtilityInterpolant :=
  { FunctionToIntegral := fun _ => -1, lower_lim := -2,
    interpolant_ := some negTable, upper_limit := (0, 0) }

end PROPOSAL

/-! ## EpairInterpolant -/

namespace PROPOSAL

/-- The part of the `EpairProduction` parametrization read by `EpairInterpolant`:
the particle mass (`GetParticleMass`) and the multiplier. -/
structure EpairProduction where
  particle_mass : ℚ
  multiplier_ : ℚ

/-- Embeds `Parametrization::GetMultiplier`. -/
def EpairProduction.GetMultiplier (param : EpairProduction) : ℚ := param.multiplier_

/-- The members of `EpairInterpolant` used by `CalculatedEdx`: the
parametrization and the tables `dedx_interpolant_` and `de2dx_interpolant_`
installed by the constructor. -/
structure EpairInterpolant where
  parametrization_ : EpairProduction
  dedx_interpolant_ : Interpolant
  de2dx_interpolant_ : Interpolant

/-- Embeds `EpairInterpolant::CalculatedEdx(energy)`. -/
def EpairInterpolant.CalculatedEdx (self : EpairInterpolant) (energy : ℚ) : ℚ :=
  if self.parametrization_.GetMultiplier ≤ 0 then 0
  else
    self.parametrization_.GetMultiplier
      * max (self.dedx_interpolant_.Interpolate energy) 0.0

/-- A disabled pair-production evaluator: multiplier `-1`, identity tables. -/
def disabledEpair : EpairInterpolant :=
  { parametrization_ := { particle_mass := 105, multiplier_ := -1 },
    dedx_interpolant_ := idTable, de2dx_interpolant_ := idTable }

end PROPOSAL

/-! ## Cross-section factories -/

namespace PROPOSAL

/-- Modelled from the spec: the macro `log_fatal` of `Logging.h`, which is not
among the sources.  A lookup of an unregistered name or enum "is a fatal
configuration error (logged, returns a sentinel only to satisfy control flow,
never meant to be used)": the call ends here and the `return` that follows it in
the source is not reached.  The logged text is not modelled. -/
def log_fatal {α : Type} : Except Failure α := .error .configurationError

/-- Embeds `::tolower` on one character (the "C" locale: only `A`..`Z` change). -/
def tolower (c : Char) : Char :=
  if 'A' ≤ c ∧ c ≤ 'Z' then Char.ofNat (c.toNat + 32) else c

/-- The idiom `name_lower = name; std::transform(name.begin(), name.end(),
name_lower.begin(), ::tolower)`. -/
def name_lower (name : String) : String := String.mk (name.data.map tolower)

/-- Embeds `std::map::find` on a map kept as a list of (key, value) entries. -/
def mapFind {κ ν : Type} [DecidableEq κ] : List (κ × ν) → κ → Option ν
  | [], _ => none
  | (k, v) :: rest, key => if k = key then some v else mapFind rest key

/-- Embeds `map[key] = value`: overwrites the entry of `key` or adds one. -/
def mapAssign {κ ν : Type} [DecidableEq κ] : List (κ × ν) → κ → ν → List (κ × ν)
  | [], key, value => [(key, value)]
  | (k, v) :: rest, key, value =>
    if k = key then (k, value) :: rest else (k, v) :: mapAssign rest key value

/-- Embeds `map.insert({key, value})`: adds the entry unless `key` is present. -/
def mapInsert {κ ν : Type} [DecidableEq κ] (m : List (κ × ν)) (key : κ) (value : ν) :
    List (κ × ν) :=
  match mapFind m key with
  | some _ => m
  | none => m ++ [(key, value)]

/-- Modelled from the spec: the container `Helper::Bimap` of `methods.h`, which is
not among the sources: the "bidirectional name↔enum" association of a registry,
a left map (name to enum) and a right map (enum to name). -/
structure Bimap (L R : Type) where
  left : List (L × R)
  right : List (R × L)

/-- Modelled from the spec: `Bimap::insert(l, r)` of `methods.h`, which is not
among the sources: records the pair in both directions. -/
def Bimap.insert {L R : Type} [DecidableEq L] [DecidableEq R]
    (b : Bimap L R) (l : L) (r : R) : Bimap L R :=
  { left := mapInsert b.left l r, right := mapInsert b.right r l }

/-- Embeds `Bimap::GetLeft`. -/
def Bimap.GetLeft {L R : Type} (b : Bimap L R) : List (L × R) := b.left

/-- Embeds `Bimap::GetRight`. -/
def Bimap.GetRight {L R : Type} (b : Bimap L R) : List (R × L) := b.right

/-- Modelled from the spec: `ParticleDef` (`particle/ParticleDef.h`, not among the
sources), the "immutable value {mass, charge, lifetime, type}"; the factories
only pass it on. -/
structure ParticleDef where
  name : String
  mass : ℚ
  charge : ℚ
  lifetime : ℚ
  deriving DecidableEq

/-- Modelled from the spec: `Components::Component` (`medium/Components.h`, not
among the sources), the per-component "composition data (atomic number, mass
fraction, number density per component)". -/
structure Component where
  name : String
  atomic_number : ℚ
  mass_fraction : ℚ
  number_density : ℚ
  deriving DecidableEq

/-- Modelled from the spec: `Medium` (`medium/Medium.h`, not among the sources),
"immutable composition data"; "a medium owns an ordered, non-empty set of
components".  The factories only pass it on. -/
structure Medium where
  name : String
  components : List Component
  deriving DecidableEq

/-- The fields of `InterpolationDef` read in `EpairInterpolant.cxx`. -/
structure InterpolationDef where
  nodes_cross_section : ℕ
  nodes_continous_randomization : ℕ
  max_node_energy : ℚ
  order_of_interpolation : ℕ
  deriving DecidableEq

/-- A built `PhotoPairProduction` parametrization: its class and the arguments
of `create`. -/
structure PhotoPairProduction where
  name : String
  particle_def : ParticleDef
  medium : Medium
  multiplier : ℚ
  deriving DecidableEq

/-- A built `PhotoAngleDistribution`: its class and the arguments of `create`. -/
structure PhotoAngleDistribution where
  name : String
  particle_def : ParticleDef
  medium : Medium
  deriving DecidableEq

/-- A built `WeakInteraction` parametrization: its class and the arguments of
`create`. -/
structure WeakInteraction where
  name : String
  particle_def : ParticleDef
  medium : Medium
  multiplier : ℚ
  deriving DecidableEq

/-- Embeds `PhotoPairTsai::create`. -/
def PhotoPairTsai.create (particle_def : ParticleDef) (medium : Medium)
    (multiplier : ℚ) : PhotoPairProduction :=
  { name := "PhotoPairTsai", particle_def := particle_def, medium := medium,
    multiplier := multiplier }

/-- Embeds `PhotoAngleTsaiIntegral::create`. -/
def PhotoAngleTsaiIntegral.create (particle_def : ParticleDef) (medium : Medium) :
    PhotoAngleDistribution :=
  { name := "PhotoAngleTsaiIntegral", particle_def := particle_def, medium := medium }

/-- Embeds `PhotoAngleNoDeflection::create`. -/
def PhotoAngleNoDeflection.create (particle_def : ParticleDef) (medium : Medium) :
    PhotoAngleDistribution :=
  { name := "PhotoAngleNoDeflection", particle_def := particle_def, medium := medium }

/-- Embeds `PhotoAngleEGS::create`. -/
def PhotoAngleEGS.create (particle_def : ParticleDef) (medium : Medium) :
    PhotoAngleDistribution :=
  { name := "PhotoAngleEGS", particle_def := particle_def, medium := medium }

/-- Embeds `WeakCooperSarkarMertsch::create`. -/
def WeakCooperSarkarMertsch.create (particle_def : ParticleDef) (medium : Medium)
    (multiplier : ℚ) : WeakInteraction :=
  { name := "WeakCooperSarkarMertsch", particle_def := particle_def, medium := medium,
    multiplier := multiplier }

/-- The cross-section evaluators the two factories construct. -/
inductive CrossSection where
  | PhotoPairIntegral (param : PhotoPairProduction) (photoangle : PhotoAngleDistribution)
  | PhotoPairInterpolant (param : PhotoPairProduction)
      (photoangle : PhotoAngleDistribution) (interpolation_def : InterpolationDef)
  | WeakIntegral (param : WeakInteraction)
  | WeakInterpolant (param : WeakInteraction) (interpolation_def : InterpolationDef)
  deriving DecidableEq

/-- The evaluator is one of the interpolation variants. -/
def CrossSection.isInterpolant : CrossSection → Bool
  | .PhotoPairInterpolant _ _ _ => true
  | .WeakInterpolant _ _ => true
  | _ => false

/-- The evaluator is one of the integration variants. -/
def CrossSection.isIntegral : CrossSection → Bool
  | .PhotoPairIntegral _ _ => true
  | .WeakIntegral _ => true
  | _ => false

/-! ### PhotoPairFactory -/

/-- Embeds `PhotoPairFactory::Enum`: the enumerators that occur in
`PhotoPairFactory.cxx` (the declaration is in a header outside the sources). -/
inductive PhotoPairFactory.Enum where
  | Fail
  | Tsai
  deriving DecidableEq, Repr

/-- Embeds `PhotoPairFactory::PhotoAngle`: the enumerators that occur in
`PhotoPairFactory.cxx`. -/
inductive PhotoPairFactory.PhotoAngle where
  | PhotoAngleTsaiIntegral
  | PhotoAngleNoDeflection
  | PhotoAngleEGS
  deriving DecidableEq, Repr

/-- Embeds `PhotoPairFactory::Definition`: the fields read by `CreatePhotoPair`. -/
structure PhotoPairFactory.Definition where
  parametrization : PhotoPairFactory.Enum
  photoangle : PhotoPairFactory.PhotoAngle
  multiplier : ℚ

/-- Embeds `PhotoPairFactory::RegisterFunction`. -/
abbrev PhotoPairFactory.RegisterFunction : Type :=
  ParticleDef → Medium → ℚ → PhotoPairProduction

/-- Embeds `PhotoPairFactory::RegisterPhotoAngleFunction`. -/
abbrev PhotoPairFactory.RegisterPhotoAngleFunction : Type :=
  ParticleDef → Medium → PhotoAngleDistribution

/-- The six registries of `PhotoPairFactory`. -/
structure PhotoPairFactory where
  photopair_map_str_ : List (String × PhotoPairFactory.RegisterFunction)
  photopair_map_enum_ : List (PhotoPairFactory.Enum × PhotoPairFactory.RegisterFunction)
  string_enum_ : Bimap String PhotoPairFactory.Enum
  photo_angle_map_str_ : List (String × PhotoPairFactory.RegisterPhotoAngleFunction)
  photo_angle_map_enum_ :
    List (PhotoPairFactory.PhotoAngle × PhotoPairFactory.RegisterPhotoAngleFunction)
  string_photo_angle_enum_ : Bimap String PhotoPairFactory.PhotoAngle

namespace PhotoPairFactory

/-- The member initialisers of the constructor: all registries empty. -/
def empty : PhotoPairFactory :=
  { photopair_map_str_ := [], photopair_map_enum_ := [],
    string_enum_ := { left := [], right := [] },
    photo_angle_map_str_ := [], photo_angle_map_enum_ := [],
    string_photo_angle_enum_ := { left := [], right := [] } }

/-- Embeds `PhotoPairFactory::Register`. -/
def Register (self : PhotoPairFactory) (name : String) (enum_t : Enum)
    (create : RegisterFunction) : PhotoPairFactory :=
  { self with
    photopair_map_str_ := mapAssign self.photopair_map_str_ name create
    photopair_map_enum_ := mapAssign self.photopair_map_enum_ enum_t create
    string_enum_ := self.string_enum_.insert name enum_t }

/-- Embeds `PhotoPairFactory::RegisterPhotoAngle`. -/
def RegisterPhotoAngle (self : PhotoPairFactory) (name : String)
    (photoangle_t : PhotoAngle) (create : RegisterPhotoAngleFunction) :
    PhotoPairFactory :=
  { self with
    photo_angle_map_str_ := mapAssign self.photo_angle_map_str_ name create
    photo_angle_map_enum_ := mapAssign self.photo_angle_map_enum_ photoangle_t create
    string_photo_angle_enum_ := self.string_photo_angle_enum_.insert name photoangle_t }

/-- The constructor `PhotoPairFactory::PhotoPairFactory()`. -/
def PhotoPairFactory : PROPOSAL.PhotoPairFactory :=
  (((empty.Register "photopairtsai" .Tsai PhotoPairTsai.create).RegisterPhotoAngle
      "photoangletsaiintegral" .PhotoAngleTsaiIntegral
      PhotoAngleTsaiIntegral.create).RegisterPhotoAngle
      "photoanglenodeflection" .PhotoAngleNoDeflection
      PhotoAngleNoDeflection.create).RegisterPhotoAngle
      "photoangleegs" .PhotoAngleEGS PhotoAngleEGS.create

/-- Embeds `PhotoPairFactory::Get()`: the singleton, built by the constructor. -/
def Get : PROPOSAL.PhotoPairFactory := PhotoPairFactory.PhotoPairFactory

/-- Embeds `PhotoPairFactory::CreatePhotoAngleDistribution(const std::string& name, ...)`. -/
def CreatePhotoAngleDistribution (self : PROPOSAL.PhotoPairFactory) (name : String)
    (particle_def : ParticleDef) (medium : Medium) :
    Except Failure PhotoAngleDistribution :=
  match mapFind self.photo_angle_map_str_ (name_lower name) with
  | some create => .ok (create particle_def medium)
  | none => log_fatal

/-- Embeds `PhotoPairFactory::CreatePhotoAngleDistribution(const PhotoAngle& photoangle, ...)`. -/
def CreatePhotoAngleDistributionByEnum (self : PROPOSAL.PhotoPairFactory)
    (photoangle : PhotoAngle) (particle_def : ParticleDef) (medium : Medium) :
    Except Failure PhotoAngleDistribution :=
  match mapFind self.photo_angle_map_enum_ photoangle with
  | some create => .ok (create particle_def medium)
  | none => log_fatal

/-- Embeds `PhotoPairFactory::CreatePhotoPair(particle_def, medium, def, interpolation_def)`.
The photo-angle distribution is created by the singleton `Get()`.  When the
enum is not in `photopair_map_enum_`, the statement
`std::invalid_argument("PhotoPair not registered!");` builds an exception object
without throwing it and control reaches the end of the function. -/
def CreatePhotoPairFromDefinition (self : PROPOSAL.PhotoPairFactory)
    (particle_def : ParticleDef) (medium : Medium) (definition : Definition)
    (interpolation_def : Option InterpolationDef) : Except Failure CrossSection :=
  match mapFind self.photopair_map_enum_ definition.parametrization with
  | some create =>
    match Get.CreatePhotoAngleDistributionByEnum definition.photoangle particle_def
        medium with
    | .error e => .error e
    | .ok photoangle =>
      match interpolation_def with
      | some idef =>
        .ok (.PhotoPairInterpolant (create particle_def medium definition.multiplier)
              photoangle idef)
      | none =>
        .ok (.PhotoPairIntegral (create particle_def medium definition.multiplier)
              photoangle)
  | none => .error .missingReturn

/-- Embeds `PhotoPairFactory::CreatePhotoPair(parametrization, photoangle,
interpolation_def)`. -/
def CreatePhotoPair (_self : PROPOSAL.PhotoPairFactory)
    (parametrization : PhotoPairProduction) (photoangle : PhotoAngleDistribution)
    (interpolation_def : Option InterpolationDef) : CrossSection :=
  match interpolation_def with
  | some idef => .PhotoPairInterpolant parametrization photoangle idef
  | none => .PhotoPairIntegral parametrization photoangle

/-- Embeds `PhotoPairFactory::GetEnumFromString`. -/
def GetEnumFromString (self : PROPOSAL.PhotoPairFactory) (name : String) :
    Except Failure Enum :=
  match mapFind self.string_enum_.GetLeft (name_lower name) with
  | some enum_t => .ok enum_t
  | none => log_fatal

/-- Embeds `PhotoPairFactory::GetStringFromEnum`. -/
def GetStringFromEnum (self : PROPOSAL.PhotoPairFactory) (enum_t : Enum) :
    Except Failure String :=
  match mapFind self.string_enum_.GetRight enum_t with
  | some name => .ok name
  | none => log_fatal

/-- Embeds `PhotoPairFactory::GetPhotoAngleEnumFromString`. -/
def GetPhotoAngleEnumFromString (self : PROPOSAL.PhotoPairFactory) (name : String) :
    Except Failure PhotoAngle :=
  match mapFind self.string_photo_angle_enum_.GetLeft (name_lower name) with
  | some photoangle => .ok photoangle
  | none => log_fatal

/-- Embeds `PhotoPairFactory::GetStringFromPhotoAngleEnum`. -/
def GetStringFromPhotoAngleEnum (self : PROPOSAL.PhotoPairFactory)
    (photoangle : PhotoAngle) : Except Failure String :=
  match mapFind self.string_photo_angle_enum_.GetRight photoangle with
  | some name => .ok name
  | none => log_fatal

end PhotoPairFactory

/-! ### WeakInteractionFactory -/

/-- Embeds `WeakInteractionFactory::Enum`: the enumerators that occur in
`WeakInteractionFactory.cxx`. -/
inductive WeakInteractionFactory.Enum where
  | Fail
  | CooperSarkarMertsch
  deriving DecidableEq, Repr

/-- Embeds `WeakInteractionFactory::Definition`: the fields read by
`CreateWeakInteraction`. -/
structure WeakInteractionFactory.Definition where
  parametrization : WeakInteractionFactory.Enum
  multiplier : ℚ

/-- Embeds `WeakInteractionFactory::RegisterFunction`. -/
abbrev WeakInteractionFactory.RegisterFunction : Type :=
  ParticleDef → Medium → ℚ → WeakInteraction

/-- The three registries of `WeakInteractionFactory`. -/
structure WeakInteractionFactory where
  weak_map_str_ : List (String × WeakInteractionFactory.RegisterFunction)
  weak_map_enum_ :
    List (WeakInteractionFactory.Enum × WeakInteractionFactory.RegisterFunction)
  string_enum_ : Bimap String WeakInteractionFactory.Enum

namespace WeakInteractionFactory

/-- The member initialisers of the constructor: all registries empty. -/
def empty : WeakInteractionFactory :=
  { weak_map_str_ := [], weak_map_enum_ := [], string_enum_ := { left := [], right := [] } }

/-- Embeds `WeakInteractionFactory::Register`. -/
def Register (self : WeakInteractionFactory) (name : String) (enum_t : Enum)
    (create : RegisterFunction) : WeakInteractionFactory :=
  { weak_map_str_ := mapAssign self.weak_map_str_ name create
    weak_map_enum_ := mapAssign self.weak_map_enum_ enum_t create
    string_enum_ := self.string_enum_.insert name enum_t }

/-- The constructor `WeakInteractionFactory::WeakInteractionFactory()`. -/
def WeakInteractionFactory : PROPOSAL.WeakInteractionFactory :=
  empty.Register "weakcoopersarkarmertsch" .CooperSarkarMertsch
    WeakCooperSarkarMertsch.create

/-- Embeds `WeakInteractionFactory::Get()`: the singleton, built by the constructor. -/
def Get : PROPOSAL.WeakInteractionFactory := WeakInteractionFactory.WeakInteractionFactory

/-- Embeds `WeakInteractionFactory::CreateWeakInteraction(particle_def, medium, def,
interpolation_def)`.  When the enum is not in `weak_map_enum_`, the statement
`std::invalid_argument("WeakInteraction not registered!");` builds an exception
object without throwing it and control reaches the end of the function. -/
def CreateWeakInteractionFromDefinition (self : PROPOSAL.WeakInteractionFactory)
    (particle_def : ParticleDef) (medium : Medium) (definition : Definition)
    (interpolation_def : Option InterpolationDef) : Except Failure CrossSection :=
  match mapFind self.weak_map_enum_ definition.parametrization with
  | some create =>
    match interpolation_def with
    | some idef =>
      .ok (.WeakInterpolant (create particle_def medium definition.multiplier) idef)
    | none => .ok (.WeakIntegral (create particle_def medium definition.multiplier))
  | none => .error .missingReturn

/-- Embeds `WeakInteractionFactory::CreateWeakInteraction(parametrization,
interpolation_def)`. -/
def CreateWeakInteraction (_self : PROPOSAL.WeakInteractionFactory)
    (parametrization : WeakInteraction) (interpolation_def : Option InterpolationDef) :
    CrossSection :=
  match interpolation_def with
  | some idef => .WeakInterpolant parametrization idef
  | none => .WeakIntegral parametrization

/-- Embeds `WeakInteractionFactory::GetEnumFromString`. -/
def GetEnumFromString (self : PROPOSAL.WeakInteractionFactory) (name : String) :
    Except Failure Enum :=
  match mapFind self.string_enum_.GetLeft (name_lower name) with
  | some enum_t => .ok enum_t
  | none => log_fatal

/-- Embeds `WeakInteractionFactory::GetStringFromEnum`. -/
def GetStringFromEnum (self : PROPOSAL.WeakInteractionFactory) (enum_t : Enum) :
    Except Failure String :=
  match mapFind self.string_enum_.GetRight enum_t with
  | some name => .ok name
  | none => log_fatal

end WeakInteractionFactory

/-! ### Concrete arguments used to evaluate the factories -/

/-- A muon-like particle definition. -/
def sampleParticle : ParticleDef :=
  { name := "MuMinus", mass := 105, charge := -1, lifetime := 2 }

/-- A medium. -/
def sampleMedium : Medium :=
  { name := "water",
    components :=
      [{ name := "H", atomic_number := 1, mass_fraction := 1 / 9, number_density := 2 },
        { name := "O", atomic_number := 8, mass_fraction := 8 / 9, number_density := 1 }] }

/-- An interpolation configuration. -/
def sampleInterpolationDef : InterpolationDef :=
  { nodes_cross_section := 100, nodes_continous_randomization := 200,
    max_node_energy := 100000000000000, order_of_interpolation := 5 }

end PROPOSAL

/-! ## Parametrization -/

namespace PROPOSAL

/-- Modelled from the spec: `EnergyCutSettings` (`EnergyCutSettings.h`, not among
the sources), the "immutable {ecut, vcut}". -/
structure EnergyCutSettings where
  ecut : ℚ
  vcut : ℚ
  deriving DecidableEq

/-- The data members of `Parametrization` (`Parametrization.h`): `medium_` is the
medium pointed to, `components_` the component vector referred to. -/
structure Parametrization where
  particle_def_ : ParticleDef
  medium_ : Medium
  cut_settings_ : EnergyCutSettings
  components_ : List Component
  component_index_ : ℤ
  multiplier_ : ℚ
  deriving DecidableEq

namespace Parametrization

/-- Embeds `Parametrization::GetParticleDef`. -/
def GetParticleDef (self : Parametrization) : ParticleDef := self.particle_def_

/-- Embeds `Parametrization::GetMedium`. -/
def GetMedium (self : Parametrization) : Medium := self.medium_

/-- Embeds `Parametrization::GetEnergyCuts`. -/
def GetEnergyCuts (self : Parametrization) : EnergyCutSettings := self.cut_settings_

/-- Embeds `Parametrization::GetMultiplier`. -/
def GetMultiplier (self : Parametrization) : ℚ := self.multiplier_

/-- Embeds `Parametrization::SetCurrentComponent(int index)`. -/
def SetCurrentComponent (self : Parametrization) (index : ℤ) : Parametrization :=
  { self with component_index_ := index }

end Parametrization

/-- A parametrization of a muon-like particle in the sample medium. -/
def sampleParametrization : Parametrization :=
  { particle_def_ := sampleParticle, medium_ := sampleMedium,
    cut_settings_ := { ecut := 500, vcut := 1 / 20 },
    components_ := sampleMedium.components, component_index_ := 0, multiplier_ := 1 }

end PROPOSAL

/-! ## Comparison of parametrizations and evaluators

The comparison operators and the constructors of the parametrization and
evaluator classes are exercised by `Photonuclear_TEST.cxx` and declared in part
in `Parametrization.h`; their definitions are not among the sources.
-/

namespace PROPOSAL

/-- The shadowing options constructed in `Photonuclear_TEST.cxx`. -/
inductive ShadowEffect where
  | ShadowButkevichMikhailov
  | ShadowDuttaRenoSarcevicSeckel
  deriving DecidableEq, Repr

/-- The photonuclear parametrization classes constructed in
`Photonuclear_TEST.cxx`: the parametrization kind. -/
inductive PhotoClass where
  | PhotoKokoulin
  | PhotoZeus
  | PhotoBezrukovBugaev
  | PhotoRhode
  | PhotoAbramowiczLevinLevyMaor91
  | PhotoAbramowiczLevinLevyMaor97
  | PhotoButkevichMikhailov
  | PhotoRenoSarcevicSu
  deriving DecidableEq, Repr

/-- The process-specific constructor argument in `Photonuclear_TEST.cxx`:
`hard_component` for the real-photon classes, a shadowing for the Q2 classes. -/
inductive PhotoOption where
  | hard_component (enabled : Bool)
  | shadow (effect : ShadowEffect)
  deriving DecidableEq, Repr

/-- A configuration: the parametrization kind and the constructor arguments
(particle, medium, cuts, process option, multiplier), as in
`PhotoKokoulin(particle_def, medium, ecuts, hard_component, multiplier)`. -/
structure Configuration where
  kind : PhotoClass
  particle_def : ParticleDef
  medium : Medium
  cuts : EnergyCutSettings
  option : PhotoOption
  multiplier : ℚ
  deriving DecidableEq

/-- A built photonuclear parametrization: its dynamic class, the `Parametrization`
members and the process-specific option. -/
structure Photonuclear where
  kind : PhotoClass
  base : Parametrization
  option : PhotoOption
  deriving DecidableEq

namespace Photonuclear

/-- Modelled from the spec: the constructors of the photonuclear parametrization
classes (and `Parametrization::Parametrization` under them), whose definitions
are not among the sources.  A parametrization is "constructed once per
configuration": it holds {particle, medium, cuts, multiplier, current-component
index}, refers to the components of its medium and starts at component `0`. -/
def create (c : Configuration) : Photonuclear :=
  { kind := c.kind,
    base :=
      { particle_def_ := c.particle_def, medium_ := c.medium, cut_settings_ := c.cuts,
        components_ := c.medium.components, component_index_ := 0,
        multiplier_ := c.multiplier },
    option := c.option }

/-- Modelled from the spec: the copy constructors of the parametrization classes
(`Parametrization(const Parametrization&)` is declared, its definition is not
among the sources): a copy holds the same value in every member. -/
def copy (p : Photonuclear) : Photonuclear :=
  { kind := p.kind,
    base :=
      { particle_def_ := p.base.particle_def_, medium_ := p.base.medium_,
        cut_settings_ := p.base.cut_settings_, components_ := p.base.components_,
        component_index_ := p.base.component_index_,
        multiplier_ := p.base.multiplier_ },
    option := p.option }

/-- The configuration a parametrization stands for: every member but the
transient current-component selector. -/
def configuration (p : Photonuclear) : Configuration :=
  { kind := p.kind, particle_def := p.base.GetParticleDef, medium := p.base.GetMedium,
    cuts := p.base.GetEnergyCuts, option := p.option,
    multiplier := p.base.GetMultiplier }

/-- Modelled from the spec: `operator==` of the parametrization classes, which is
not among the sources: "identical configurations must compare equal" and
configurations "differing in exactly one of {particle, medium, cuts,
multiplier}" (or in kind or process-specific option) "must compare unequal"; the
current-component selector is "not a persistent mutation of identity". -/
def operator_eq (a b : Photonuclear) : Bool :=
  decide (a.kind = b.kind) && decide (a.base.particle_def_ = b.base.particle_def_)
    && decide (a.base.medium_ = b.base.medium_)
    && decide (a.base.cut_settings_ = b.base.cut_settings_)
    && decide (a.base.multiplier_ = b.base.multiplier_)
    && decide (a.option = b.option)

/-- Modelled from the spec: `operator!=` of the parametrization classes, the
negation of `operator==`. -/
def operator_ne (a b : Photonuclear) : Bool := !(a.operator_eq b)

end Photonuclear

/-- Modelled from the spec: `PhotoIntegral` (`PhotoIntegral.h`, not among the
sources), the integration evaluator, which "owns or references exactly one
Parametrization". -/
structure PhotoIntegral where
  parametrization_ : Photonuclear
  deriving DecidableEq

/-- Modelled from the spec: `PhotoInterpolant` (`PhotoInterpolant.h`, not among
the sources), the interpolation evaluator: one parametrization and the
interpolation configuration it was built with. -/
structure PhotoInterpolant where
  parametrization_ : Photonuclear
  interpolation_def : InterpolationDef
  deriving DecidableEq

namespace PhotoIntegral

/-- Modelled from the spec: the constructor `PhotoIntegral(param)`: the evaluator
holds a copy of the parametrization. -/
def create (param : Photonuclear) : PhotoIntegral := { parametrization_ := param.copy }

/-- Modelled from the spec: the copy constructor of `PhotoIntegral`. -/
def copy (x : PhotoIntegral) : PhotoIntegral :=
  { parametrization_ := x.parametrization_.copy }

/-- Modelled from the spec: `operator==` of the integration evaluators: two
evaluators compare as their parametrizations do. -/
def operator_eq (a b : PhotoIntegral) : Bool :=
  a.parametrization_.operator_eq b.parametrization_

/-- Modelled from the spec: `operator!=` of the integration evaluators. -/
def operator_ne (a b : PhotoIntegral) : Bool := !(a.operator_eq b)

end PhotoIntegral

namespace PhotoInterpolant

/-- Modelled from the spec: the constructor `PhotoInterpolant(param, def)`: the
evaluator holds a copy of the parametrization. -/
def create (param : Photonuclear) (interpolation_def : InterpolationDef) :
    PhotoInterpolant :=
  { parametrization_ := param.copy, interpolation_def := interpolation_def }

/-- Modelled from the spec: the copy constructor of `PhotoInterpolant`. -/
def copy (x : PhotoInterpolant) : PhotoInterpolant :=
  { parametrization_ := x.parametrization_.copy,
    interpolation_def := x.interpolation_def }

/-- Modelled from the spec: `operator==` of the interpolation evaluators: two
evaluators compare as their parametrizations do. -/
def operator_eq (a b : PhotoInterpolant) : Bool :=
  a.parametrization_.operator_eq b.parametrization_

/-- Modelled from the spec: `operator!=` of the interpolation evaluators. -/
def operator_ne (a b : PhotoInterpolant) : Bool := !(a.operator_eq b)

end PhotoInterpolant

/-- The configuration of `Comparison_not_equal`: `PhotoKokoulin` for a muon in the
sample medium, cuts `(500, 0.05)`, hard component on, multiplier `1`. -/
def sampleConfiguration : Configuration :=
  { kind := .PhotoKokoulin, particle_def := sampleParticle, medium := sampleMedium,
    cuts := { ecut := 500, vcut := 1 / 20 }, option := .hard_component true,
    multiplier := 1 }

end PROPOSAL

/-! ## UtilityInterpolant: branches and sequences of calls -/

namespace PROPOSAL
namespace UtilityInterpolant

/-- The two `return` statements of `Calculate`. -/
inductive CalculateBranch where
  /-- The value `FunctionToIntegral(...) * (energy_final - energy_initial)`. -/
  | firstOrder
  /-- The value `upper_limit.first - interpolant_->Interpolate(energy_final)`. -/
  | tableDifference
  deriving DecidableEq, Repr

/-- The test `energy_initial - energy_final < energy_initial * IPREC` of
`Calculate`, which selects its `return` statement. -/
def calculateBranch (IPREC energy_initial energy_final : ℚ) : CalculateBranch :=
  if energy_initial - energy_final < energy_initial * IPREC then .firstOrder
  else .tableDifference

/-- The two ways in which `GetUpperLimit` produces its result. -/
inductive UpperLimitPath where
  /-- The inverted energy `lower_limit` is returned. -/
  | tableInversion
  /-- The two-pass estimate is returned. -/
  | twoPassFallback
  deriving DecidableEq, Repr

/-- The test `energy_initial - lower_limit > energy_initial * IPREC` of
`GetUpperLimit`, which decides whether the inverted energy is accepted. -/
def upperLimitPath (IPREC energy_initial lower_limit : ℚ) : UpperLimitPath :=
  if energy_initial - lower_limit > energy_initial * IPREC then .tableInversion
  else .twoPassFallback

/-- One call on a `UtilityInterpolant`. -/
inductive Call where
  | BuildTables (table : Interpolant)
  | Calculate (energy_initial energy_final rnd : ℚ)
  | GetUpperLimit (energy_initial rnd : ℚ)

/-- The object after one call; a failed call ends the run. -/
def afterCall (IPREC : ℚ) (u : UtilityInterpolant) : Call → Except Failure UtilityInterpolant
  | .BuildTables table => .ok (u.BuildTables table)
  | .Calculate energy_initial energy_final rnd =>
    match Calculate IPREC u energy_initial energy_final rnd with
    | .error e => .error e
    | .ok (_, u1) => .ok u1
  | .GetUpperLimit energy_initial rnd =>
    match GetUpperLimit IPREC u energy_initial rnd with
    | .error e => .error e
    | .ok (_, u1) => .ok u1

/-- The object after a sequence of calls, made one after the other. -/
def afterCalls (IPREC : ℚ) : UtilityInterpolant → List Call → Except Failure UtilityInterpolant
  | u, [] => .ok u
  | u, call :: rest =>
    match afterCall IPREC u call with
    | .error e => .error e
    | .ok u1 => afterCalls IPREC u1 rest

/-- The call is a `BuildTables`. -/
def Call.isBuildTables : Call → Bool
  | .BuildTables _ => true
  | _ => false

end UtilityInterpolant

/-- The exact cumulative table of a constant integrand `c` over `[lower_lim, ∞)`,
`T(E) = c * (lower_lim - E)`, with its inverse. -/
def linearTable (c lower_lim : ℚ) : Interpolant :=
  { Interpolate := fun E => c * (lower_lim - E),
    FindLimit := fun y => lower_lim - y / c }

/-- An interpolant with the constant integrand `-2` over `[1, ∞)` and its exact
table; the memo holds energy `4`. -/
def constantUtility : UtilityInterpolant :=
  { FunctionToIntegral := fun _ => -2, lower_lim := 1,
    interpolant_ := some (linearTable (-2) 1), upper_limit := (6, 4) }

/-- A table shifted by one, `x ↦ x + 1`, with its exact inverse. -/
def shiftTable : Interpolant :=
  { Interpolate := fun x => x + 1, FindLimit := fun y => y - 1 }

/-- The sample interpolant after `Calculate(10, 5, _)` and a `BuildTables` that
installs the shifted table: the memo still holds `(10, 10)`. -/
def staleShiftUtility : UtilityInterpolant :=
  { FunctionToIntegral := fun E => E, lower_lim := 1,
    interpolant_ := some shiftTable, upper_limit := (10, 10) }

/-- The sample interpolant after `Calculate(10, 5, _)` and a `BuildTables` that
installs the table `x ↦ -x`: the memo still holds `(10, 10)`. -/
def staleNegUtility : UtilityInterpolant :=
  { FunctionToIntegral := fun E => E, lower_lim := 1,
    interpolant_ := some negTable, upper_limit := (10, 10) }

/-- An interpolant with the constant integrand `-2` over `[1, ∞)` on which a
first table, the identity, is installed. -/
def constantStartUtility : UtilityInterpolant :=
  { FunctionToIntegral := fun _ => -2, lower_lim := 1,
    interpolant_ := some idTable, upper_limit := (3, 3) }

/-- The interpolant `constantStartUtility` after `Calculate(10, 5, _)` and a
`BuildTables` that installs the exact table of the integrand: the memo still
holds `(10, 10)`. -/
def staleConstantUtility : UtilityInterpolant :=
  { FunctionToIntegral := fun _ => -2, lower_lim := 1,
    interpolant_ := some (linearTable (-2) 1), upper_limit := (10, 10) }

/-- A pair-production evaluator with multiplier `3` and the identity tables. -/
def enabledEpair : EpairInterpolant :=
  { parametrization_ := { particle_mass := 105, multiplier_ := 3 },
    dedx_interpolant_ := idTable, de2dx_interpolant_ := idTable }

end PROPOSAL

/-! ## Registries: correspondence of names, enums and pairs -/

namespace PROPOSAL

/-- The keys of a map kept as a list of entries. -/
def mapKeys {κ ν : Type} (m : List (κ × ν)) : List κ := m.map Prod.fst

/-- Names, enums and name/enum pairs of one registry are in one-to-one
correspondence: the name map and the left map have the same names, the enum map
and the right map have the same enums, the right map is the left map with every
pair swapped, and no name and no enum occurs twice. -/
def RegistryInCorrespondence {E F : Type} [DecidableEq E]
    (map_str : List (String × F)) (map_enum : List (E × F))
    (string_enum : Bimap String E) : Prop :=
  mapKeys map_str = mapKeys string_enum.GetLeft ∧
  mapKeys map_enum = mapKeys string_enum.GetRight ∧
  string_enum.GetRight = string_enum.GetLeft.map Prod.swap ∧
  (mapKeys string_enum.GetLeft).Nodup ∧ (mapKeys string_enum.GetRight).Nodup

/-- Both registries of a `PhotoPairFactory` are in one-to-one correspondence. -/
def PhotoPairFactory.InCorrespondence (f : PROPOSAL.PhotoPairFactory) : Prop :=
  RegistryInCorrespondence f.photopair_map_str_ f.photopair_map_enum_ f.string_enum_ ∧
  RegistryInCorrespondence f.photo_angle_map_str_ f.photo_angle_map_enum_
    f.string_photo_angle_enum_

/-- The registry of a `WeakInteractionFactory` is in one-to-one correspondence. -/
def WeakInteractionFactory.InCorrespondence (f : PROPOSAL.WeakInteractionFactory) : Prop :=
  RegistryInCorrespondence f.weak_map_str_ f.weak_map_enum_ f.string_enum_

/-- The object after each of the four registrations made, in this order, by the
constructor `PhotoPairFactory::PhotoPairFactory()`. -/
def PhotoPairFactory.constructorStates : List PROPOSAL.PhotoPairFactory :=
  [PhotoPairFactory.empty.Register "photopairtsai" .Tsai PhotoPairTsai.create,
    (PhotoPairFactory.empty.Register "photopairtsai" .Tsai
      PhotoPairTsai.create).RegisterPhotoAngle
      "photoangletsaiintegral" .PhotoAngleTsaiIntegral PhotoAngleTsaiIntegral.create,
    ((PhotoPairFactory.empty.Register "photopairtsai" .Tsai
      PhotoPairTsai.create).RegisterPhotoAngle
      "photoangletsaiintegral" .PhotoAngleTsaiIntegral
      PhotoAngleTsaiIntegral.create).RegisterPhotoAngle
      "photoanglenodeflection" .PhotoAngleNoDeflection PhotoAngleNoDeflection.create,
    (((PhotoPairFactory.empty.Register "photopairtsai" .Tsai
      PhotoPairTsai.create).RegisterPhotoAngle
      "photoangletsaiintegral" .PhotoAngleTsaiIntegral
      PhotoAngleTsaiIntegral.create).RegisterPhotoAngle
      "photoanglenodeflection" .PhotoAngleNoDeflection
      PhotoAngleNoDeflection.create).RegisterPhotoAngle
      "photoangleegs" .PhotoAngleEGS PhotoAngleEGS.create]

/-- The object after the registration made by the constructor
`WeakInteractionFactory::WeakInteractionFactory()`. -/
def WeakInteractionFactory.constructorStates : List PROPOSAL.WeakInteractionFactory :=
  [WeakInteractionFactory.empty.Register "weakcoopersarkarmertsch" .CooperSarkarMertsch
    WeakCooperSarkarMertsch.create]

end PROPOSAL

/-! ## Theorems: UtilityInterpolant -/

namespace PROPOSAL
namespace UtilityInterpolant

/-- With both assertions satisfied and a table installed, `Calculate` stores the
memo `(Table(Ei), Ei)` and then selects one of its two branches. -/
theorem Calculate_unfold (IPREC : ℚ) (u : UtilityInterpolant) (table : Interpolant)
    (Ei Ef rnd : ℚ) (htab : u.interpolant_ = some table)
    (h1 : Ei ≥ Ef) (h2 : Ef ≥ u.lower_lim) :
    Calculate IPREC u Ei Ef rnd =
      if Ei - Ef < Ei * IPREC then
        .ok (u.FunctionToIntegral ((Ei + Ei) / 2) * (Ef - Ei),
              { u with upper_limit := (table.Interpolate Ei, Ei) })
      else
        .ok (table.Interpolate Ei - table.Interpolate Ef,
              { u with upper_limit := (table.Interpolate Ei, Ei) }) := by
  unfold Calculate
  rw [if_neg (not_not.mpr h1), if_neg (not_not.mpr h2), htab]

/-- A state whose memo is consistent and already holds `Ei` is unchanged by
storing `(Table(Ei), Ei)`. -/
theorem memo_hit_eq (u : UtilityInterpolant) (table : Interpolant) (Ei : ℚ)
    (htab : u.interpolant_ = some table) (hmemo : MemoConsistent u)
    (hhit : Ei = u.upper_limit.2) :
    ({ u with upper_limit := (table.Interpolate Ei, Ei) } : UtilityInterpolant) = u := by
  have h := hmemo table htab
  cases u with
  | mk f l i m =>
    cases m with
    | mk v e =>
      simp only at h hhit
      subst hhit
      simp [h]

/-- With `rnd ≥ 0`, `Ei ≥ lower_lim`, a table installed and a consistent memo,
`GetUpperLimit` leaves the memo `(Table(Ei), Ei)` and selects one of its two
paths by comparing the inverted energy with `Ei`. -/
theorem GetUpperLimit_unfold (IPREC : ℚ) (u : UtilityInterpolant) (table : Interpolant)
    (Ei rnd : ℚ) (htab : u.interpolant_ = some table) (hmemo : MemoConsistent u)
    (hr : rnd ≥ 0) (hE : Ei ≥ u.lower_lim) :
    GetUpperLimit IPREC u Ei rnd =
      if Ei - table.FindLimit (table.Interpolate Ei - rnd) > Ei * IPREC then
        .ok (table.FindLimit (table.Interpolate Ei - rnd),
              { u with upper_limit := (table.Interpolate Ei, Ei) })
      else
        .ok (Ei + rnd / u.FunctionToIntegral
                (Ei + 0.5 * rnd / u.FunctionToIntegral Ei),
              { u with upper_limit := (table.Interpolate Ei, Ei) }) := by
  unfold GetUpperLimit
  rw [if_neg (not_not.mpr hr)]
  by_cases hhit : Ei = u.upper_limit.2
  · have hu := memo_hit_eq u table Ei htab hmemo hhit
    rw [hu]
    have hv : u.upper_limit.1 = table.Interpolate Ei := by
      rw [hmemo table htab, ← hhit]
    simp only [ne_eq, hhit, not_true_eq_false, if_false, htab]
    simp only [← hhit, hv]
  · rw [if_pos hhit, Calculate_unfold IPREC u table Ei u.lower_lim rnd htab hE le_rfl]
    by_cases hc : Ei - u.lower_lim < Ei * IPREC
    · simp only [hc, if_true, htab]
    · simp only [hc, if_false, htab]

/-- The unfolding of `GetUpperLimit` needs the memo only at `Ei`: it is enough
that the memo holds another energy than `Ei`, or holds `Ei` with `Table(Ei)`. -/
theorem GetUpperLimit_unfold_of_memo (IPREC : ℚ) (u : UtilityInterpolant)
    (table : Interpolant) (Ei rnd : ℚ) (htab : u.interpolant_ = some table)
    (hmemo : u.upper_limit.2 = Ei → u.upper_limit.1 = table.Interpolate Ei)
    (hr : rnd ≥ 0) (hE : Ei ≥ u.lower_lim) :
    GetUpperLimit IPREC u Ei rnd =
      if Ei - table.FindLimit (table.Interpolate Ei - rnd) > Ei * IPREC then
        .ok (table.FindLimit (table.Interpolate Ei - rnd),
              { u with upper_limit := (table.Interpolate Ei, Ei) })
      else
        .ok (Ei + rnd / u.FunctionToIntegral
                (Ei + 0.5 * rnd / u.FunctionToIntegral Ei),
              { u with upper_limit := (table.Interpolate Ei, Ei) }) := by
  unfold GetUpperLimit
  rw [if_neg (not_not.mpr hr)]
  by_cases hhit : Ei = u.upper_limit.2
  · have hv : u.upper_limit.1 = table.Interpolate Ei := hmemo hhit.symm
    have hu : ({ u with upper_limit := (table.Interpolate Ei, Ei) } : UtilityInterpolant)
        = u := by
      cases u with
      | mk f l i m =>
        cases m with
        | mk v e =>
          simp only at hv hhit
          subst hhit
          simp [hv]
    rw [hu]
    simp only [ne_eq, hhit, not_true_eq_false, if_false, htab]
    simp only [← hhit, hv]
  · rw [if_pos hhit, Calculate_unfold IPREC u table Ei u.lower_lim rnd htab hE le_rfl]
    by_cases hc : Ei - u.lower_lim < Ei * IPREC
    · simp only [hc, if_true, htab]
    · simp only [hc, if_false, htab]

/-- The sample interpolant, after `Calculate(10, 5, _)` and a `BuildTables` that
installs the shifted table, is the object `staleShiftUtility`. -/
theorem afterCalls_staleShiftUtility :
    afterCalls (1 / 1000000) sampleUtility [.Calculate 10 5 0, .BuildTables shiftTable]
      = .ok staleShiftUtility := by
  have hcalc : Calculate (1 / 1000000) sampleUtility 10 5 0 =
      .ok (5, { sampleUtility with upper_limit := (10, 10) }) := by
    rw [Calculate_unfold (1 / 1000000) sampleUtility idTable 10 5 0 rfl (by norm_num)
      (by norm_num [sampleUtility]), if_neg (by norm_num)]
    norm_num [idTable]
  simp only [afterCalls, afterCall, hcalc, BuildTables]
  rfl

/-- The sample interpolant, after `Calculate(10, 5, _)` and a `BuildTables` that
installs the table `x ↦ -x`, is the object `staleNegUtility`. -/
theorem afterCalls_staleNegUtility :
    afterCalls (1 / 1000000) sampleUtility [.Calculate 10 5 0, .BuildTables negTable]
      = .ok staleNegUtility := by
  have hcalc : Calculate (1 / 1000000) sampleUtility 10 5 0 =
      .ok (5, { sampleUtility with upper_limit := (10, 10) }) := by
    rw [Calculate_unfold (1 / 1000000) sampleUtility idTable 10 5 0 rfl (by norm_num)
      (by norm_num [sampleUtility]), if_neg (by norm_num)]
    norm_num [idTable]
  simp only [afterCalls, afterCall, hcalc, BuildTables]
  rfl

/-- The interpolant `constantStartUtility`, after `Calculate(10, 5, _)` and a
`BuildTables` that installs the exact table of its integrand, is the object
`staleConstantUtility`. -/
theorem afterCalls_staleConstantUtility :
    afterCalls (1 / 1000000) constantStartUtility
        [.Calculate 10 5 0, .BuildTables (linearTable (-2) 1)]
      = .ok staleConstantUtility := by
  have hcalc : Calculate (1 / 1000000) constantStartUtility 10 5 0 =
      .ok (5, { constantStartUtility with upper_limit := (10, 10) }) := by
    rw [Calculate_unfold (1 / 1000000) constantStartUtility idTable 10 5 0 rfl
      (by norm_num) (by norm_num [constantStartUtility]), if_neg (by norm_num)]
    norm_num [idTable]
  simp only [afterCalls, afterCall, hcalc, BuildTables]
  rfl

/-! ### C2: the table-difference branch of `Calculate` -/

/-- C2: for `Ei ≥ Ef ≥ lower_lim` that are not numerically close
(`Ei - Ef ≥ Ei * IPREC`), `Calculate(Ei, Ef, rnd)` returns
`Table(Ei) - Table(Ef)`, where `Table` is `Interpolate` of the installed table
(and leaves the memo `(Table(Ei), Ei)`). -/
theorem Calculate_table_difference (IPREC : ℚ) (u : UtilityInterpolant)
    (table : Interpolant) (Ei Ef rnd : ℚ) (htab : u.interpolant_ = some table)
    (h1 : Ei ≥ Ef) (h2 : Ef ≥ u.lower_lim) (hfar : Ei - Ef ≥ Ei * IPREC) :
    Calculate IPREC u Ei Ef rnd =
      .ok (table.Interpolate Ei - table.Interpolate Ef,
            { u with upper_limit := (table.Interpolate Ei, Ei) }) := by
  rw [Calculate_unfold IPREC u table Ei Ef rnd htab h1 h2, if_neg (not_lt.mpr hfar)]

/-- C2 at `Ei = 10`, `Ef = 5` over `[1, ∞)` with the identity table. -/
theorem Calculate_table_difference_witness :
    sampleUtility.interpolant_ = some idTable ∧ (10 : ℚ) ≥ 5 ∧
      (5 : ℚ) ≥ sampleUtility.lower_lim ∧ (10 : ℚ) - 5 ≥ 10 * (1 / 1000000) ∧
      Calculate (1 / 1000000) sampleUtility 10 5 0 =
        .ok (idTable.Interpolate 10 - idTable.Interpolate 5,
              { sampleUtility with upper_limit := (idTable.Interpolate 10, 10) }) :=
  ⟨rfl, by norm_num, by norm_num [sampleUtility], by norm_num,
    Calculate_table_difference (1 / 1000000) sampleUtility idTable 10 5 0 rfl
      (by norm_num) (by norm_num [sampleUtility]) (by norm_num)⟩

/-! ### C3: the first-order branch of `Calculate` -/

/-- For `Ei ≥ Ef ≥ lower_lim` that are numerically close
(`Ei - Ef < Ei * IPREC`), `Calculate(Ei, Ef, rnd)` evaluates the integrand at
`(Ei + Ei) / 2 = Ei` and multiplies by `Ef - Ei`. -/
theorem Calculate_first_order (IPREC : ℚ) (u : UtilityInterpolant)
    (table : Interpolant) (Ei Ef rnd : ℚ) (htab : u.interpolant_ = some table)
    (h1 : Ei ≥ Ef) (h2 : Ef ≥ u.lower_lim) (hclose : Ei - Ef < Ei * IPREC) :
    Calculate IPREC u Ei Ef rnd =
      .ok (u.FunctionToIntegral Ei * (Ef - Ei),
            { u with upper_limit := (table.Interpolate Ei, Ei) }) := by
  rw [Calculate_unfold IPREC u table Ei Ef rnd htab h1 h2, if_pos hclose]
  have hE : (Ei + Ei) / 2 = Ei := by ring
  rw [hE]

/-- C3, what the code computes at a numerically close pair: with
`IPREC = 1e-6`, integrand `E ↦ E`, `Ei = 2000000` and `Ef = 1999999`
(`Ei - Ef = 1 < 2 = Ei * IPREC`), `Calculate` returns `-2000000`, the integrand
at `Ei` times `Ef - Ei`, whereas the integrand at the midpoint `(Ei + Ef) / 2`
times `Ef - Ei` is `-3999999 / 2`. -/
theorem Calculate_close_not_midpoint :
    (2000000 : ℚ) - 1999999 < 2000000 * (1 / 1000000) ∧
    Calculate (1 / 1000000) sampleUtility 2000000 1999999 0 =
      .ok (-2000000, { sampleUtility with upper_limit := (2000000, 2000000) }) ∧
    sampleUtility.FunctionToIntegral ((2000000 + 1999999) / 2) * (1999999 - 2000000)
      = -3999999 / 2 ∧
    (-2000000 : ℚ) ≠ -3999999 / 2 := by
  refine ⟨by norm_num, ?_, by norm_num [sampleUtility], by norm_num⟩
  rw [Calculate_first_order (1 / 1000000) sampleUtility idTable 2000000 1999999 0 rfl
    (by norm_num) (by norm_num [sampleUtility]) (by norm_num)]
  norm_num [sampleUtility, idTable]

/-! ### C4: the table-inversion path of `GetUpperLimit` -/

/-- The sample interpolant has a consistent memo: it holds `(3, 3)` and the
identity table gives `3` at `3`. -/
theorem sampleUtility_memoConsistent : MemoConsistent sampleUtility := by
  intro table h
  have ht : table = idTable := by
    simp only [sampleUtility, Option.some.injEq] at h
    exact h.symm
  subst ht
  rfl

/-- C4 fails on a stale memo.  On the sample interpolant (`IPREC = 1e-6`,
`lower_lim = 1`), `Calculate(10, 5, _)` followed by a `BuildTables` that installs
the table `x ↦ x + 1` leaves the memo `(10, 10)`.  For `Ei = 10 ≥ lower_lim` and
`rnd = 1 / 2 ≥ 0` the inversion of the installed table is
`L = FindLimit(Table(10) - 1 / 2) = 19 / 2`, with `Ei - L > Ei * IPREC`; but
`GetUpperLimit(10, 1 / 2)` inverts the memo value and returns `17 / 2`. -/
theorem table_inversion_fails_stale_memo :
    afterCalls (1 / 1000000) sampleUtility [.Calculate 10 5 0, .BuildTables shiftTable]
      = .ok staleShiftUtility ∧
    staleShiftUtility.interpolant_ = some shiftTable ∧
    (1 / 2 : ℚ) ≥ 0 ∧ (10 : ℚ) ≥ staleShiftUtility.lower_lim ∧
    shiftTable.FindLimit (shiftTable.Interpolate 10 - 1 / 2) = 19 / 2 ∧
    (10 : ℚ) - 19 / 2 > 10 * (1 / 1000000) ∧
    GetUpperLimit (1 / 1000000) staleShiftUtility 10 (1 / 2)
      = .ok (17 / 2, staleShiftUtility) ∧
    (17 / 2 : ℚ) ≠ 19 / 2 := by
  refine ⟨afterCalls_staleShiftUtility, rfl, by norm_num,
    by norm_num [staleShiftUtility], by norm_num [shiftTable], by norm_num, ?_,
    by norm_num⟩
  unfold GetUpperLimit
  norm_num [shiftTable, staleShiftUtility]

/-- C4, amended: for `rnd ≥ 0` and `Ei ≥ lower_lim`, with a table installed and a
memo that holds another energy than `Ei` or holds `Ei` together with
`Table(Ei)`, let `L = FindLimit(Table(Ei) - rnd)`: if `Ei - L > Ei * IPREC` then
`GetUpperLimit(Ei, rnd)` returns exactly `L`. -/
theorem GetUpperLimit_table_inversion (IPREC : ℚ) (u : UtilityInterpolant)
    (table : Interpolant) (Ei rnd : ℚ) (htab : u.interpolant_ = some table)
    (hmemo : u.upper_limit.2 = Ei → u.upper_limit.1 = table.Interpolate Ei)
    (hr : rnd ≥ 0) (hE : Ei ≥ u.lower_lim)
    (hfar : Ei - table.FindLimit (table.Interpolate Ei - rnd) > Ei * IPREC) :
    GetUpperLimit IPREC u Ei rnd =
      .ok (table.FindLimit (table.Interpolate Ei - rnd),
            { u with upper_limit := (table.Interpolate Ei, Ei) }) := by
  rw [GetUpperLimit_unfold_of_memo IPREC u table Ei rnd htab hmemo hr hE, if_pos hfar]

/-- C4 (amended) at `Ei = 10`, `rnd = 5` with the identity table and a memo that
holds the energy `3`: the inverted energy `5` is returned. -/
theorem GetUpperLimit_table_inversion_witness :
    sampleUtility.interpolant_ = some idTable ∧
      (sampleUtility.upper_limit.2 = 10 →
        sampleUtility.upper_limit.1 = idTable.Interpolate 10) ∧
      (5 : ℚ) ≥ 0 ∧ (10 : ℚ) ≥ sampleUtility.lower_lim ∧
      (10 : ℚ) - idTable.FindLimit (idTable.Interpolate 10 - 5) > 10 * (1 / 1000000) ∧
      GetUpperLimit (1 / 1000000) sampleUtility 10 5 =
        .ok (idTable.FindLimit (idTable.Interpolate 10 - 5),
              { sampleUtility with upper_limit := (idTable.Interpolate 10, 10) }) :=
  ⟨rfl, fun h => absurd h (by norm_num [sampleUtility]), by norm_num,
    by norm_num [sampleUtility], by norm_num [idTable],
    GetUpperLimit_table_inversion (1 / 1000000) sampleUtility idTable 10 5 rfl
      (fun h => absurd h (by norm_num [sampleUtility])) (by norm_num)
      (by norm_num [sampleUtility]) (by norm_num [idTable])⟩

/-! ### C5: the two-pass fallback of `GetUpperLimit` -/

/-- C5 fails on a stale memo.  On the sample interpolant (`IPREC = 1e-6`,
`lower_lim = 1`, integrand `E ↦ E`), `Calculate(10, 5, _)` followed by a
`BuildTables` that installs the table `x ↦ -x` leaves the memo `(10, 10)`.  For
`Ei = 10 ≥ lower_lim` and `rnd = 1 ≥ 0` the inversion of the installed table is
`L = FindLimit(Table(10) - 1) = 11`, with `Ei - L = -1 ≤ Ei * IPREC`; but
`GetUpperLimit(10, 1)` inverts the memo value and returns `-9`, not the two-pass
estimate `10 + 1 / f(10 + 0.5 * 1 / f(10)) = 2030 / 201`. -/
theorem two_pass_fallback_fails_stale_memo :
    afterCalls (1 / 1000000) sampleUtility [.Calculate 10 5 0, .BuildTables negTable]
      = .ok staleNegUtility ∧
    staleNegUtility.interpolant_ = some negTable ∧
    (1 : ℚ) ≥ 0 ∧ (10 : ℚ) ≥ staleNegUtility.lower_lim ∧
    negTable.FindLimit (negTable.Interpolate 10 - 1) = 11 ∧
    (10 : ℚ) - 11 ≤ 10 * (1 / 1000000) ∧
    GetUpperLimit (1 / 1000000) staleNegUtility 10 1 = .ok (-9, staleNegUtility) ∧
    10 + 1 / staleNegUtility.FunctionToIntegral
        (10 + 0.5 * 1 / staleNegUtility.FunctionToIntegral 10) = (2030 / 201 : ℚ) ∧
    (-9 : ℚ) ≠ 2030 / 201 := by
  refine ⟨afterCalls_staleNegUtility, rfl, by norm_num, by norm_num [staleNegUtility],
    by norm_num [negTable], by norm_num, ?_, by norm_num [staleNegUtility],
    by norm_num⟩
  unfold GetUpperLimit
  norm_num [negTable, staleNegUtility]

/-- C5, amended: for `rnd ≥ 0` and `Ei ≥ lower_lim`, with a table installed and a
memo that holds another energy than `Ei` or holds `Ei` together with
`Table(Ei)`: if the inverted energy `L = FindLimit(Table(Ei) - rnd)` is not
sufficiently displaced from `Ei` (`Ei - L ≤ Ei * IPREC`), `GetUpperLimit(Ei, rnd)`
returns `Ei + rnd / f(s)` with `f = FunctionToIntegral` and
`s = Ei + 0.5 * rnd / f(Ei)`, which is the average of `Ei` and the first-order
step `Ei + rnd / f(Ei)`; `L` does not occur in the result. -/
theorem GetUpperLimit_two_pass_fallback (IPREC : ℚ) (u : UtilityInterpolant)
    (table : Interpolant) (Ei rnd : ℚ) (htab : u.interpolant_ = some table)
    (hmemo : u.upper_limit.2 = Ei → u.upper_limit.1 = table.Interpolate Ei)
    (hr : rnd ≥ 0) (hE : Ei ≥ u.lower_lim)
    (hnear : Ei - table.FindLimit (table.Interpolate Ei - rnd) ≤ Ei * IPREC) :
    GetUpperLimit IPREC u Ei rnd =
        .ok (Ei + rnd / u.FunctionToIntegral (Ei + 0.5 * rnd / u.FunctionToIntegral Ei),
              { u with upper_limit := (table.Interpolate Ei, Ei) }) ∧
      Ei + 0.5 * rnd / u.FunctionToIntegral Ei
        = (Ei + (Ei + rnd / u.FunctionToIntegral Ei)) / 2 := by
  constructor
  · rw [GetUpperLimit_unfold_of_memo IPREC u table Ei rnd htab hmemo hr hE,
      if_neg (not_lt.mpr hnear)]
  · norm_num
    ring

/-- C5 (amended) at `Ei = 2000000`, `rnd = 1` with the identity table and a memo
that holds the energy `3`: the inverted energy `1999999` is within
`Ei * IPREC = 2` of `Ei`, so the two-pass estimate is returned. -/
theorem GetUpperLimit_two_pass_fallback_witness :
    sampleUtility.interpolant_ = some idTable ∧
      (sampleUtility.upper_limit.2 = 2000000 →
        sampleUtility.upper_limit.1 = idTable.Interpolate 2000000) ∧
      (1 : ℚ) ≥ 0 ∧ (2000000 : ℚ) ≥ sampleUtility.lower_lim ∧
      (2000000 : ℚ) - idTable.FindLimit (idTable.Interpolate 2000000 - 1)
        ≤ 2000000 * (1 / 1000000) ∧
      (GetUpperLimit (1 / 1000000) sampleUtility 2000000 1 =
          .ok (2000000 + 1 / sampleUtility.FunctionToIntegral
                  (2000000 + 0.5 * 1 / sampleUtility.FunctionToIntegral 2000000),
                { sampleUtility with
                  upper_limit := (idTable.Interpolate 2000000, 2000000) }) ∧
        2000000 + 0.5 * 1 / sampleUtility.FunctionToIntegral 2000000
          = (2000000 + (2000000 + 1 / sampleUtility.FunctionToIntegral 2000000)) / 2) :=
  ⟨rfl, fun h => absurd h (by norm_num [sampleUtility]), by norm_num,
    by norm_num [sampleUtility], by norm_num [idTable],
    GetUpperLimit_two_pass_fallback (1 / 1000000) sampleUtility idTable 2000000 1 rfl
      (fun h => absurd h (by norm_num [sampleUtility])) (by norm_num)
      (by norm_num [sampleUtility]) (by norm_num [idTable])⟩

/-! ### C6: the single-slot memo is transparent -/

/-- C6: let the memo of `u` hold `Ei` with `Table(Ei)`, and let `(v, e)` be any
other consistent memo, `v = Table(e)`.  For `Ei ≥ lower_lim` and `rnd ≥ 0`,
`GetUpperLimit(Ei, rnd)` gives the same value and the same final object from
both memo states; from the memo that holds `Ei` the object is returned
unchanged, and from a memo that holds a different energy the call
`Calculate(Ei, lower_lim, rnd)` succeeds and installs exactly that memo. -/
theorem GetUpperLimit_memo_transparent (IPREC : ℚ) (u : UtilityInterpolant)
    (table : Interpolant) (Ei rnd v e : ℚ) (htab : u.interpolant_ = some table)
    (hE : Ei ≥ u.lower_lim) (hr : rnd ≥ 0)
    (hhit : u.upper_limit = (table.Interpolate Ei, Ei))
    (hv : v = table.Interpolate e) :
    GetUpperLimit IPREC { u with upper_limit := (v, e) } Ei rnd
        = GetUpperLimit IPREC u Ei rnd ∧
      (∃ r, GetUpperLimit IPREC u Ei rnd = .ok (r, u)) ∧
      (∃ c, Calculate IPREC { u with upper_limit := (v, e) } Ei u.lower_lim rnd
        = .ok (c, u)) := by
  have hu : ({ u with upper_limit := (table.Interpolate Ei, Ei) } : UtilityInterpolant)
      = u := by
    cases u with
    | mk f l i m =>
      simp only at hhit
      rw [hhit]
  have hmemo : MemoConsistent u := by
    intro t ht
    have htt : t = table := by
      rw [htab] at ht
      exact (Option.some.inj ht).symm
    rw [htt, hhit]
  have hmemo2 : MemoConsistent { u with upper_limit := (v, e) } := by
    intro t ht
    have htt : t = table := by
      have ht2 : u.interpolant_ = some t := ht
      rw [htab] at ht2
      exact (Option.some.inj ht2).symm
    rw [htt]
    exact hv
  have h1 := GetUpperLimit_unfold IPREC u table Ei rnd htab hmemo hr hE
  have h2 := GetUpperLimit_unfold IPREC { u with upper_limit := (v, e) } table Ei rnd
    htab hmemo2 hr hE
  rw [hu] at h1
  have hu2 : ({ ({ u with upper_limit := (v, e) } : UtilityInterpolant) with
      upper_limit := (table.Interpolate Ei, Ei) } : UtilityInterpolant) = u := hu
  rw [hu2] at h2
  refine ⟨by rw [h1, h2], ?_, ?_⟩
  · rw [h1]
    by_cases hc : Ei - table.FindLimit (table.Interpolate Ei - rnd) > Ei * IPREC
    · exact ⟨_, by rw [if_pos hc]⟩
    · exact ⟨_, by rw [if_neg hc]⟩
  · have h3 := Calculate_unfold IPREC { u with upper_limit := (v, e) } table Ei
      u.lower_lim rnd htab hE le_rfl
    rw [hu2] at h3
    rw [h3]
    by_cases hc : Ei - u.lower_lim < Ei * IPREC
    · exact ⟨_, by rw [if_pos hc]⟩
    · exact ⟨_, by rw [if_neg hc]⟩

/-- C6 at `Ei = 3`, `rnd = 1`: the sample memo holds `(3, 3)`; a memo holding
`(7, 7)` gives the same outcome. -/
theorem GetUpperLimit_memo_transparent_witness :
    (3 : ℚ) ≥ sampleUtility.lower_lim ∧ (1 : ℚ) ≥ 0 ∧
      (GetUpperLimit (1 / 1000000) { sampleUtility with upper_limit := (7, 7) } 3 1
          = GetUpperLimit (1 / 1000000) sampleUtility 3 1 ∧
        (∃ r, GetUpperLimit (1 / 1000000) sampleUtility 3 1 = .ok (r, sampleUtility)) ∧
        (∃ c, Calculate (1 / 1000000) { sampleUtility with upper_limit := (7, 7) } 3
          sampleUtility.lower_lim 1 = .ok (c, sampleUtility))) :=
  ⟨by norm_num [sampleUtility], by norm_num,
    GetUpperLimit_memo_transparent (1 / 1000000) sampleUtility idTable 3 1 7 7 rfl
      (by norm_num [sampleUtility]) (by norm_num) rfl rfl⟩

/-! ### C1: inverse property -/

/-- The negative-energy interpolant has a consistent memo: it holds `(0, 0)` and
the table `x ↦ -x` gives `0` at `0`. -/
theorem negativeUtility_memoConsistent : MemoConsistent negativeUtility := by
  intro table h
  have ht : table = negTable := by
    simp only [negativeUtility, Option.some.injEq] at h
    exact h.symm
  subst ht
  simp [negativeUtility, negTable]

/-- The condition `Ei ≥ 0` of the inverse property is needed: for a negative
starting energy the threshold `Ei * IPREC` is negative.  With `IPREC = 1e-6`,
`lower_lim = -2`, the table `x ↦ -x` (whose `FindLimit` inverts it exactly),
`Ei = -1 ≥ lower_lim` and `rnd = 5e-7`: `GetUpperLimit` takes the
table-inversion path (`Ei - L = -5e-7 > -1e-6 = Ei * IPREC`) and returns
`-1999999 / 2000000 ≥ lower_lim`, which is above `Ei`, and `Calculate` at these
two energies fails its first assertion. -/
theorem inverse_property_fails_negative_energy :
    (∀ y, negTable.Interpolate (negTable.FindLimit y) = y) ∧
    (-1 : ℚ) ≥ negativeUtility.lower_lim ∧
    (-1 : ℚ) - negTable.FindLimit (negTable.Interpolate (-1) - 1 / 2000000)
      > (-1) * (1 / 1000000) ∧
    GetUpperLimit (1 / 1000000) negativeUtility (-1) (1 / 2000000) =
      .ok (-1999999 / 2000000, { negativeUtility with upper_limit := (1, -1) }) ∧
    (-1999999 / 2000000 : ℚ) ≥ negativeUtility.lower_lim ∧
    ∀ rnd, Calculate (1 / 1000000) { negativeUtility with upper_limit := (1, -1) }
      (-1) (-1999999 / 2000000) rnd = .error .assertion := by
  refine ⟨fun y => by simp [negTable], by norm_num [negativeUtility],
    by norm_num [negTable], ?_, by norm_num [negativeUtility], ?_⟩
  · rw [GetUpperLimit_unfold (1 / 1000000) negativeUtility negTable (-1) (1 / 2000000)
      rfl negativeUtility_memoConsistent (by norm_num) (by norm_num [negativeUtility]),
      if_pos (by norm_num [negTable])]
    norm_num [negTable]
  · intro rnd
    unfold Calculate
    rw [if_pos (by norm_num)]

/-- C1 fails on a stale memo.  On the sample interpolant (`IPREC = 1e-6`,
`lower_lim = 1`), `Calculate(10, 5, _)` followed by a `BuildTables` that installs
the table `x ↦ x + 1`, whose `FindLimit` inverts it exactly, leaves the memo
`(10, 10)`.  For `Ei = 10 ≥ lower_lim` and `rnd = 1 / 2` in `(0, 1)`,
`GetUpperLimit(10, 1 / 2)` takes the table-inversion path: it returns the
inverted energy `Ef = FindLimit(10 - 1 / 2) = 17 / 2 ≥ lower_lim`, accepted
because `Ei - Ef > Ei * IPREC`; but `Calculate(10, 17 / 2, _)` returns
`Table(10) - Table(17 / 2) = 3 / 2`, not `rnd = 1 / 2`. -/
theorem inverse_property_fails_stale_memo :
    afterCalls (1 / 1000000) sampleUtility [.Calculate 10 5 0, .BuildTables shiftTable]
      = .ok staleShiftUtility ∧
    staleShiftUtility.interpolant_ = some shiftTable ∧
    (∀ y, shiftTable.Interpolate (shiftTable.FindLimit y) = y) ∧
    (10 : ℚ) ≥ staleShiftUtility.lower_lim ∧ (0 : ℚ) < 1 / 2 ∧ (1 / 2 : ℚ) < 1 ∧
    GetUpperLimit (1 / 1000000) staleShiftUtility 10 (1 / 2)
      = .ok (17 / 2, staleShiftUtility) ∧
    shiftTable.FindLimit (staleShiftUtility.upper_limit.1 - 1 / 2) = 17 / 2 ∧
    (10 : ℚ) - 17 / 2 > 10 * (1 / 1000000) ∧
    (17 / 2 : ℚ) ≥ staleShiftUtility.lower_lim ∧
    Calculate (1 / 1000000) staleShiftUtility 10 (17 / 2) 0
      = .ok (3 / 2, { staleShiftUtility with upper_limit := (11, 10) }) ∧
    (3 / 2 : ℚ) ≠ 1 / 2 := by
  refine ⟨afterCalls_staleShiftUtility, rfl, fun y => by simp [shiftTable],
    by norm_num [staleShiftUtility], by norm_num, by norm_num, ?_,
    by norm_num [shiftTable, staleShiftUtility], by norm_num,
    by norm_num [staleShiftUtility], ?_, by norm_num⟩
  · unfold GetUpperLimit
    norm_num [shiftTable, staleShiftUtility]
  · rw [Calculate_unfold (1 / 1000000) staleShiftUtility shiftTable 10 (17 / 2) 0 rfl
      (by norm_num) (by norm_num [staleShiftUtility]), if_neg (by norm_num)]
    norm_num [shiftTable]

/-- C1, amended: for a starting energy `Ei ≥ 0`, `Ei ≥ lower_lim` (and
`IPREC ≥ 0`), every `rnd ≥ 0`, a table installed whose `FindLimit` exactly
inverts `Interpolate`, and a memo that holds another energy than `Ei` or holds
`Ei` together with `Table(Ei)`: whenever `GetUpperLimit(Ei, rnd)` takes the
table-inversion path (`Ei - L > Ei * IPREC` for `L = FindLimit(Table(Ei) - rnd)`)
and `L ≥ lower_lim`, `GetUpperLimit` returns `Ef = L` and `Calculate(Ei, Ef, _)`
on the resulting object returns exactly `rnd`. -/
theorem Calculate_GetUpperLimit_inverse (IPREC : ℚ) (u : UtilityInterpolant)
    (table : Interpolant) (Ei rnd rnd2 : ℚ) (htab : u.interpolant_ = some table)
    (hmemo : u.upper_limit.2 = Ei → u.upper_limit.1 = table.Interpolate Ei)
    (hinv : ∀ y, table.Interpolate (table.FindLimit y) = y)
    (hI : 0 ≤ IPREC) (h0 : 0 ≤ Ei) (hE : Ei ≥ u.lower_lim) (hr : rnd ≥ 0)
    (hpath : Ei - table.FindLimit (table.Interpolate Ei - rnd) > Ei * IPREC)
    (hEf : table.FindLimit (table.Interpolate Ei - rnd) ≥ u.lower_lim) :
    GetUpperLimit IPREC u Ei rnd =
        .ok (table.FindLimit (table.Interpolate Ei - rnd),
              { u with upper_limit := (table.Interpolate Ei, Ei) }) ∧
      Calculate IPREC { u with upper_limit := (table.Interpolate Ei, Ei) } Ei
          (table.FindLimit (table.Interpolate Ei - rnd)) rnd2 =
        .ok (rnd, { u with upper_limit := (table.Interpolate Ei, Ei) }) := by
  have hge : Ei ≥ table.FindLimit (table.Interpolate Ei - rnd) := by
    have hpos : 0 ≤ Ei * IPREC := mul_nonneg h0 hI
    have hlt : 0 < Ei - table.FindLimit (table.Interpolate Ei - rnd) :=
      lt_of_le_of_lt hpos hpath
    exact le_of_lt (sub_pos.mp hlt)
  refine ⟨?_, ?_⟩
  · rw [GetUpperLimit_unfold_of_memo IPREC u table Ei rnd htab hmemo hr hE,
      if_pos hpath]
  · rw [Calculate_unfold IPREC { u with upper_limit := (table.Interpolate Ei, Ei) }
      table Ei (table.FindLimit (table.Interpolate Ei - rnd)) rnd2 htab hge hEf,
      if_neg (not_lt.mpr (le_of_lt hpath)), hinv]
    simp

/-- C1 (amended) at `Ei = 10`, `rnd = 1 / 2` with the identity table over
`[1, ∞)` and a memo that holds the energy `3`: `GetUpperLimit` returns `19 / 2`
and `Calculate(10, 19 / 2, _)` returns `1 / 2`. -/
theorem Calculate_GetUpperLimit_inverse_witness :
    sampleUtility.interpolant_ = some idTable ∧
      (sampleUtility.upper_limit.2 = 10 →
        sampleUtility.upper_limit.1 = idTable.Interpolate 10) ∧
      (∀ y, idTable.Interpolate (idTable.FindLimit y) = y) ∧
      (0 : ℚ) ≤ 1 / 1000000 ∧ (0 : ℚ) ≤ 10 ∧ (10 : ℚ) ≥ sampleUtility.lower_lim ∧
      (1 / 2 : ℚ) ≥ 0 ∧
      (10 : ℚ) - idTable.FindLimit (idTable.Interpolate 10 - 1 / 2)
        > 10 * (1 / 1000000) ∧
      idTable.FindLimit (idTable.Interpolate 10 - 1 / 2) ≥ sampleUtility.lower_lim ∧
      (GetUpperLimit (1 / 1000000) sampleUtility 10 (1 / 2) =
          .ok (idTable.FindLimit (idTable.Interpolate 10 - 1 / 2),
                { sampleUtility with upper_limit := (idTable.Interpolate 10, 10) }) ∧
        Calculate (1 / 1000000)
            { sampleUtility with upper_limit := (idTable.Interpolate 10, 10) } 10
            (idTable.FindLimit (idTable.Interpolate 10 - 1 / 2)) 0 =
          .ok (1 / 2, { sampleUtility with
                        upper_limit := (idTable.Interpolate 10, 10) })) :=
  ⟨rfl, fun h => absurd h (by norm_num [sampleUtility]), fun _ => rfl, by norm_num,
    by norm_num, by norm_num [sampleUtility], by norm_num,
    by norm_num [idTable], by norm_num [idTable, sampleUtility],
    Calculate_GetUpperLimit_inverse (1 / 1000000) sampleUtility idTable 10 (1 / 2) 0
      rfl (fun h => absurd h (by norm_num [sampleUtility])) (fun _ => rfl)
      (by norm_num) (by norm_num)
      (by norm_num [sampleUtility]) (by norm_num) (by norm_num [idTable])
      (by norm_num [idTable, sampleUtility])⟩

end UtilityInterpolant
end PROPOSAL

/-! ## Theorems: EpairInterpolant -/

namespace PROPOSAL

/-- C7: for a parametrization whose multiplier is `≤ 0`,
`EpairInterpolant::CalculatedEdx(E)` returns `0` for every energy `E`, whatever
table is installed as `dedx_interpolant_`: the table is not consulted. -/
theorem EpairInterpolant.CalculatedEdx_disabled (self : EpairInterpolant) (energy : ℚ)
    (h : self.parametrization_.GetMultiplier ≤ 0) :
    self.CalculatedEdx energy = 0 ∧
      ∀ table : Interpolant,
        ({ self with dedx_interpolant_ := table } : EpairInterpolant).CalculatedEdx energy
          = 0 := by
  constructor
  · unfold EpairInterpolant.CalculatedEdx
    rw [if_pos h]
  · intro table
    unfold EpairInterpolant.CalculatedEdx
    rw [if_pos h]

/-- C7 at multiplier `-1` and energy `1000`. -/
theorem EpairInterpolant.CalculatedEdx_disabled_witness :
    disabledEpair.parametrization_.GetMultiplier ≤ 0 ∧
      (disabledEpair.CalculatedEdx 1000 = 0 ∧
        ∀ table : Interpolant,
          ({ disabledEpair with dedx_interpolant_ := table } :
            EpairInterpolant).CalculatedEdx 1000 = 0) :=
  ⟨by norm_num [disabledEpair, EpairProduction.GetMultiplier],
    EpairInterpolant.CalculatedEdx_disabled disabledEpair 1000
      (by norm_num [disabledEpair, EpairProduction.GetMultiplier])⟩

end PROPOSAL

/-! ## Theorems: factories -/

namespace PROPOSAL

/-- Every `PhotoAngle` enumerator is registered in the singleton, so creating a
distribution by enum succeeds. -/
theorem PhotoPairFactory.Get_CreatePhotoAngleDistributionByEnum_ok
    (photoangle : PhotoPairFactory.PhotoAngle) (particle_def : ParticleDef)
    (medium : Medium) :
    ∃ dist, PhotoPairFactory.Get.CreatePhotoAngleDistributionByEnum photoangle
      particle_def medium = .ok dist := by
  cases photoangle
  · exact ⟨PhotoAngleTsaiIntegral.create particle_def medium, rfl⟩
  · exact ⟨PhotoAngleNoDeflection.create particle_def medium, rfl⟩
  · exact ⟨PhotoAngleEGS.create particle_def medium, rfl⟩

/-- C9: the factories choose the evaluator by the presence of the interpolation
configuration alone.  For every built parametrization (and photo-angle
distribution), `CreateWeakInteraction(p, c)` and `CreatePhotoPair(p, a, c)`
return the interpolation variant on exactly that parametrization when `c` is
supplied and the integration variant when it is not; for every `Definition`
whose parametrization enum is registered, the `Definition`-based overloads
return an evaluator, which is the interpolation variant if and only if `c` is
supplied and the integration variant otherwise. -/
theorem factories_choose_variant_by_interpolation_def
    (wf : WeakInteractionFactory) (pf : PhotoPairFactory)
    (c : Option InterpolationDef) :
    (∀ p : WeakInteraction,
      wf.CreateWeakInteraction p c =
        (match c with
          | some idef => CrossSection.WeakInterpolant p idef
          | none => CrossSection.WeakIntegral p) ∧
      (wf.CreateWeakInteraction p c).isInterpolant = c.isSome ∧
      (wf.CreateWeakInteraction p c).isIntegral = c.isNone) ∧
    (∀ (p : PhotoPairProduction) (a : PhotoAngleDistribution),
      pf.CreatePhotoPair p a c =
        (match c with
          | some idef => CrossSection.PhotoPairInterpolant p a idef
          | none => CrossSection.PhotoPairIntegral p a) ∧
      (pf.CreatePhotoPair p a c).isInterpolant = c.isSome ∧
      (pf.CreatePhotoPair p a c).isIntegral = c.isNone) ∧
    (∀ (particle_def : ParticleDef) (medium : Medium)
        (d : WeakInteractionFactory.Definition),
      (mapFind wf.weak_map_enum_ d.parametrization).isSome = true →
      ∃ cs, wf.CreateWeakInteractionFromDefinition particle_def medium d c = .ok cs ∧
        cs.isInterpolant = c.isSome ∧ cs.isIntegral = c.isNone) ∧
    (∀ (particle_def : ParticleDef) (medium : Medium)
        (d : PhotoPairFactory.Definition),
      (mapFind pf.photopair_map_enum_ d.parametrization).isSome = true →
      ∃ cs, pf.CreatePhotoPairFromDefinition particle_def medium d c = .ok cs ∧
        cs.isInterpolant = c.isSome ∧ cs.isIntegral = c.isNone) := by
  refine ⟨?_, ?_, ?_, ?_⟩
  · intro p
    cases c <;> simp [WeakInteractionFactory.CreateWeakInteraction,
      CrossSection.isInterpolant, CrossSection.isIntegral]
  · intro p a
    cases c <;> simp [PhotoPairFactory.CreatePhotoPair,
      CrossSection.isInterpolant, CrossSection.isIntegral]
  · intro particle_def medium d hreg
    unfold WeakInteractionFactory.CreateWeakInteractionFromDefinition
    cases hfind : mapFind wf.weak_map_enum_ d.parametrization with
    | none => rw [hfind] at hreg; simp at hreg
    | some create =>
      cases c <;> simp [CrossSection.isInterpolant, CrossSection.isIntegral]
  · intro particle_def medium d hreg
    unfold PhotoPairFactory.CreatePhotoPairFromDefinition
    cases hfind : mapFind pf.photopair_map_enum_ d.parametrization with
    | none => rw [hfind] at hreg; simp at hreg
    | some create =>
      obtain ⟨dist, hdist⟩ :=
        PhotoPairFactory.Get_CreatePhotoAngleDistributionByEnum_ok d.photoangle
          particle_def medium
      cases c <;> simp [hdist, CrossSection.isInterpolant, CrossSection.isIntegral]

/-- Embeds `::tolower` agrees with the library lower-casing of one ASCII character. -/
theorem tolower_eq_toLower (c : Char) : tolower c = c.toLower := by
  unfold tolower Char.toLower
  have hA : ('A' ≤ c) ↔ (c.toNat ≥ 65) := by
    rw [Char.le_def]
    exact Iff.rfl
  have hZ : (c ≤ 'Z') ↔ (c.toNat ≤ 90) := by
    rw [Char.le_def]
    exact Iff.rfl
  simp only [hA, hZ]

/-- Lower-casing by the source idiom is the characterwise library lower-casing. -/
theorem name_lower_data (name : String) :
    (name_lower name).data = name.data.map Char.toLower := by
  unfold name_lower
  simp only
  apply List.map_congr_left
  intro c _
  exact tolower_eq_toLower c

/-- Names equal after lower-casing have equal `name_lower`. -/
theorem name_lower_congr (a b : String)
    (h : a.data.map Char.toLower = b.data.map Char.toLower) :
    name_lower a = name_lower b := by
  have h2 : (name_lower a).data = (name_lower b).data := by
    rw [name_lower_data, name_lower_data, h]
  exact String.ext h2

/-- C10: registry name lookup is case-insensitive.  For two names that are
equal after ASCII lower-casing of every character, `GetEnumFromString` of
`PhotoPairFactory` and of `WeakInteractionFactory`,
`GetPhotoAngleEnumFromString` and the by-name `CreatePhotoAngleDistribution`
give the same outcome (the same enum or constructed object, or the same
failure), for any content of the registries; and in the registry as constructed
`"PhotoPairTsai"` and `"photopairtsai"` both map to `Tsai`. -/
theorem lookup_case_insensitive (pf : PhotoPairFactory) (wf : WeakInteractionFactory)
    (a b : String) (particle_def : ParticleDef) (medium : Medium)
    (h : a.data.map Char.toLower = b.data.map Char.toLower) :
    pf.GetEnumFromString a = pf.GetEnumFromString b ∧
    wf.GetEnumFromString a = wf.GetEnumFromString b ∧
    pf.GetPhotoAngleEnumFromString a = pf.GetPhotoAngleEnumFromString b ∧
    pf.CreatePhotoAngleDistribution a particle_def medium
      = pf.CreatePhotoAngleDistribution b particle_def medium ∧
    PhotoPairFactory.Get.GetEnumFromString "PhotoPairTsai" = .ok .Tsai ∧
    PhotoPairFactory.Get.GetEnumFromString "photopairtsai" = .ok .Tsai := by
  have hl := name_lower_congr a b h
  refine ⟨?_, ?_, ?_, ?_, by decide, by decide⟩
  · unfold PhotoPairFactory.GetEnumFromString
    rw [hl]
  · unfold WeakInteractionFactory.GetEnumFromString
    rw [hl]
  · unfold PhotoPairFactory.GetPhotoAngleEnumFromString
    rw [hl]
  · unfold PhotoPairFactory.CreatePhotoAngleDistribution
    rw [hl]

/-- C10 at `"PhotoAngleEGS"` and `"photoangleegs"` in the registries as
constructed. -/
theorem lookup_case_insensitive_witness :
    "PhotoAngleEGS".data.map Char.toLower = "photoangleegs".data.map Char.toLower ∧
      (PhotoPairFactory.Get.GetEnumFromString "PhotoAngleEGS"
          = PhotoPairFactory.Get.GetEnumFromString "photoangleegs" ∧
        WeakInteractionFactory.Get.GetEnumFromString "PhotoAngleEGS"
          = WeakInteractionFactory.Get.GetEnumFromString "photoangleegs" ∧
        PhotoPairFactory.Get.GetPhotoAngleEnumFromString "PhotoAngleEGS"
          = PhotoPairFactory.Get.GetPhotoAngleEnumFromString "photoangleegs" ∧
        PhotoPairFactory.Get.CreatePhotoAngleDistribution "PhotoAngleEGS"
            sampleParticle sampleMedium
          = PhotoPairFactory.Get.CreatePhotoAngleDistribution "photoangleegs"
            sampleParticle sampleMedium ∧
        PhotoPairFactory.Get.GetEnumFromString "PhotoPairTsai" = .ok .Tsai ∧
        PhotoPairFactory.Get.GetEnumFromString "photopairtsai" = .ok .Tsai) :=
  ⟨by decide,
    lookup_case_insensitive PhotoPairFactory.Get WeakInteractionFactory.Get
      "PhotoAngleEGS" "photoangleegs" sampleParticle sampleMedium (by decide)⟩

/-- C9 at the registered enum `Tsai` in the registry as constructed, with an
interpolation configuration supplied: an interpolation variant is returned. -/
theorem factories_choose_variant_by_interpolation_def_witness :
    (mapFind PhotoPairFactory.Get.photopair_map_enum_
        PhotoPairFactory.Enum.Tsai).isSome = true ∧
      ∃ cs, PhotoPairFactory.Get.CreatePhotoPairFromDefinition sampleParticle
          sampleMedium
          { parametrization := .Tsai, photoangle := .PhotoAngleEGS, multiplier := 1 }
          (some sampleInterpolationDef) = .ok cs ∧
        cs.isInterpolant = (some sampleInterpolationDef).isSome ∧
        cs.isIntegral = (some sampleInterpolationDef).isNone :=
  ⟨by decide,
    (factories_choose_variant_by_interpolation_def WeakInteractionFactory.Get
      PhotoPairFactory.Get (some sampleInterpolationDef)).2.2.2 sampleParticle
      sampleMedium
      { parametrization := .Tsai, photoangle := .PhotoAngleEGS, multiplier := 1 }
      (by decide)⟩

end PROPOSAL

/-! ## Theorems: failures of the registry lookups and of the evaluator constructors -/

namespace PROPOSAL

/-- The name-to-enum map of the `PhotoPairFactory` singleton. -/
theorem PhotoPairFactory.Get_left :
    PhotoPairFactory.Get.string_enum_.GetLeft = [("photopairtsai", .Tsai)] := rfl

/-- The enum-to-name map of the `PhotoPairFactory` singleton. -/
theorem PhotoPairFactory.Get_right :
    PhotoPairFactory.Get.string_enum_.GetRight = [(.Tsai, "photopairtsai")] := rfl

/-- The name-to-enum map of the photo-angle registry of the singleton. -/
theorem PhotoPairFactory.Get_photo_angle_left :
    PhotoPairFactory.Get.string_photo_angle_enum_.GetLeft =
      [("photoangletsaiintegral", .PhotoAngleTsaiIntegral),
        ("photoanglenodeflection", .PhotoAngleNoDeflection),
        ("photoangleegs", .PhotoAngleEGS)] := by
  decide

/-- The enum-to-name map of the photo-angle registry of the singleton. -/
theorem PhotoPairFactory.Get_photo_angle_right :
    PhotoPairFactory.Get.string_photo_angle_enum_.GetRight =
      [(.PhotoAngleTsaiIntegral, "photoangletsaiintegral"),
        (.PhotoAngleNoDeflection, "photoanglenodeflection"),
        (.PhotoAngleEGS, "photoangleegs")] := by
  decide

/-- The name-to-constructor map of the photo-angle registry of the singleton. -/
theorem PhotoPairFactory.Get_photo_angle_map_str :
    PhotoPairFactory.Get.photo_angle_map_str_ =
      [("photoangletsaiintegral", PhotoAngleTsaiIntegral.create),
        ("photoanglenodeflection", PhotoAngleNoDeflection.create),
        ("photoangleegs", PhotoAngleEGS.create)] := by
  simp [PhotoPairFactory.Get, PhotoPairFactory.PhotoPairFactory,
    PhotoPairFactory.RegisterPhotoAngle, PhotoPairFactory.Register,
    PhotoPairFactory.empty, mapAssign]

/-- The name-to-enum map of the `WeakInteractionFactory` singleton. -/
theorem WeakInteractionFactory.Get_weak_left :
    WeakInteractionFactory.Get.string_enum_.GetLeft =
      [("weakcoopersarkarmertsch", .CooperSarkarMertsch)] := rfl

/-- The enum-to-name map of the `WeakInteractionFactory` singleton. -/
theorem WeakInteractionFactory.Get_weak_right :
    WeakInteractionFactory.Get.string_enum_.GetRight =
      [(.CooperSarkarMertsch, "weakcoopersarkarmertsch")] := rfl

/-! ### C11: an unregistered name -/

/-- C11: for a name whose lower-cased form is not a key of the searched map,
`GetEnumFromString` (of `PhotoPairFactory` and of `WeakInteractionFactory`),
`GetPhotoAngleEnumFromString` and the by-name `CreatePhotoAngleDistribution`
end in `log_fatal`, a configuration error, and return no enum and no
distribution; in the registries as constructed this is every name whose
lower-cased form is not one of the registered names. -/
theorem unregistered_name_lookup_fails (pf : PhotoPairFactory)
    (wf : WeakInteractionFactory) (name : String) (particle_def : ParticleDef)
    (medium : Medium) :
    (mapFind pf.string_enum_.GetLeft (name_lower name) = none →
      pf.GetEnumFromString name = .error .configurationError) ∧
    (mapFind wf.string_enum_.GetLeft (name_lower name) = none →
      wf.GetEnumFromString name = .error .configurationError) ∧
    (mapFind pf.string_photo_angle_enum_.GetLeft (name_lower name) = none →
      pf.GetPhotoAngleEnumFromString name = .error .configurationError) ∧
    (mapFind pf.photo_angle_map_str_ (name_lower name) = none →
      pf.CreatePhotoAngleDistribution name particle_def medium
        = .error .configurationError) ∧
    (name_lower name ≠ "photopairtsai" →
      PhotoPairFactory.Get.GetEnumFromString name = .error .configurationError) ∧
    (name_lower name ≠ "weakcoopersarkarmertsch" →
      WeakInteractionFactory.Get.GetEnumFromString name
        = .error .configurationError) ∧
    (name_lower name ∉
        ["photoangletsaiintegral", "photoanglenodeflection", "photoangleegs"] →
      PhotoPairFactory.Get.GetPhotoAngleEnumFromString name
          = .error .configurationError ∧
        PhotoPairFactory.Get.CreatePhotoAngleDistribution name particle_def medium
          = .error .configurationError) := by
  refine ⟨?_, ?_, ?_, ?_, ?_, ?_, ?_⟩
  · intro h
    unfold PhotoPairFactory.GetEnumFromString
    rw [h]
    rfl
  · intro h
    unfold WeakInteractionFactory.GetEnumFromString
    rw [h]
    rfl
  · intro h
    unfold PhotoPairFactory.GetPhotoAngleEnumFromString
    rw [h]
    rfl
  · intro h
    unfold PhotoPairFactory.CreatePhotoAngleDistribution
    rw [h]
    rfl
  · intro h
    unfold PhotoPairFactory.GetEnumFromString
    rw [PhotoPairFactory.Get_left]
    simp only [mapFind, if_neg (Ne.symm h)]
    rfl
  · intro h
    unfold WeakInteractionFactory.GetEnumFromString
    rw [WeakInteractionFactory.Get_weak_left]
    simp only [mapFind, if_neg (Ne.symm h)]
    rfl
  · intro h
    simp only [List.mem_cons, List.mem_singleton, List.not_mem_nil, or_false,
      not_or] at h
    obtain ⟨h1, h2, h3⟩ := h
    constructor
    · unfold PhotoPairFactory.GetPhotoAngleEnumFromString
      rw [PhotoPairFactory.Get_photo_angle_left]
      simp only [mapFind, if_neg (Ne.symm h1), if_neg (Ne.symm h2),
        if_neg (Ne.symm h3)]
      rfl
    · unfold PhotoPairFactory.CreatePhotoAngleDistribution
      rw [PhotoPairFactory.Get_photo_angle_map_str]
      simp only [mapFind, if_neg (Ne.symm h1), if_neg (Ne.symm h2),
        if_neg (Ne.symm h3)]
      rfl

/-- C11 at the name `"PhotoPairFoo"`, which is in none of the registries as
constructed. -/
theorem unregistered_name_lookup_fails_witness :
    name_lower "PhotoPairFoo" ≠ "photopairtsai" ∧
    name_lower "PhotoPairFoo" ≠ "weakcoopersarkarmertsch" ∧
    name_lower "PhotoPairFoo" ∉
      ["photoangletsaiintegral", "photoanglenodeflection", "photoangleegs"] ∧
    PhotoPairFactory.Get.GetEnumFromString "PhotoPairFoo"
      = .error .configurationError ∧
    WeakInteractionFactory.Get.GetEnumFromString "PhotoPairFoo"
      = .error .configurationError ∧
    PhotoPairFactory.Get.GetPhotoAngleEnumFromString "PhotoPairFoo"
      = .error .configurationError ∧
    PhotoPairFactory.Get.CreatePhotoAngleDistribution "PhotoPairFoo" sampleParticle
      sampleMedium = .error .configurationError :=
  have h := unregistered_name_lookup_fails PhotoPairFactory.Get
    WeakInteractionFactory.Get "PhotoPairFoo" sampleParticle sampleMedium
  ⟨by decide, by decide, by decide, h.2.2.2.2.1 (by decide),
    h.2.2.2.2.2.1 (by decide), (h.2.2.2.2.2.2 (by decide)).1,
    (h.2.2.2.2.2.2 (by decide)).2⟩

/-! ### C12: an unregistered enum in a `Definition` -/

/-- When the parametrization enum of the `Definition` is not in the enum map,
the `Definition`-based constructors leave the function without a `return`: no
error is raised or logged. -/
theorem Create_from_unregistered_definition (wf : WeakInteractionFactory)
    (pf : PhotoPairFactory) (particle_def : ParticleDef) (medium : Medium)
    (wd : WeakInteractionFactory.Definition) (pd : PhotoPairFactory.Definition)
    (c : Option InterpolationDef) :
    (mapFind wf.weak_map_enum_ wd.parametrization = none →
      wf.CreateWeakInteractionFromDefinition particle_def medium wd c
        = .error .missingReturn) ∧
    (mapFind pf.photopair_map_enum_ pd.parametrization = none →
      pf.CreatePhotoPairFromDefinition particle_def medium pd c
        = .error .missingReturn) := by
  constructor
  · intro h
    unfold WeakInteractionFactory.CreateWeakInteractionFromDefinition
    rw [h]
  · intro h
    unfold PhotoPairFactory.CreatePhotoPairFromDefinition
    rw [h]

/-- C12, what the code does for the unregistered enum `Fail`: in the registries
as constructed, `CreateWeakInteraction(particle, medium, def, c)` and
`CreatePhotoPair(particle, medium, def, c)` with `def.parametrization = Fail`
reach the end of the function without a `return` (the `std::invalid_argument`
object is built but not thrown); the outcome is not the configuration error of
`log_fatal`, with or without an interpolation configuration. -/
theorem Create_with_Fail_enum_missing_return :
    mapFind WeakInteractionFactory.Get.weak_map_enum_ WeakInteractionFactory.Enum.Fail
      = none ∧
    mapFind PhotoPairFactory.Get.photopair_map_enum_ PhotoPairFactory.Enum.Fail
      = none ∧
    WeakInteractionFactory.Get.CreateWeakInteractionFromDefinition sampleParticle
      sampleMedium { parametrization := .Fail, multiplier := 1 } none
      = .error .missingReturn ∧
    WeakInteractionFactory.Get.CreateWeakInteractionFromDefinition sampleParticle
      sampleMedium { parametrization := .Fail, multiplier := 1 }
      (some sampleInterpolationDef) = .error .missingReturn ∧
    PhotoPairFactory.Get.CreatePhotoPairFromDefinition sampleParticle sampleMedium
      { parametrization := .Fail, photoangle := .PhotoAngleNoDeflection,
        multiplier := 1 } none = .error .missingReturn ∧
    PhotoPairFactory.Get.CreatePhotoPairFromDefinition sampleParticle sampleMedium
      { parametrization := .Fail, photoangle := .PhotoAngleNoDeflection,
        multiplier := 1 } (some sampleInterpolationDef) = .error .missingReturn ∧
    Failure.missingReturn ≠ Failure.configurationError := by
  refine ⟨rfl, rfl, rfl, rfl, rfl, rfl, by decide⟩

/-! ### C13: the name/enum association is bidirectional -/

/-- The name-to-constructor map of the `PhotoPairFactory` singleton. -/
theorem PhotoPairFactory.Get_photopair_map_str :
    PhotoPairFactory.Get.photopair_map_str_ = [("photopairtsai", PhotoPairTsai.create)] :=
  rfl

/-- The enum-to-constructor map of the `PhotoPairFactory` singleton. -/
theorem PhotoPairFactory.Get_photopair_map_enum :
    PhotoPairFactory.Get.photopair_map_enum_ = [(.Tsai, PhotoPairTsai.create)] := rfl

/-- The name-to-constructor map of the `WeakInteractionFactory` singleton. -/
theorem WeakInteractionFactory.Get_weak_map_str :
    WeakInteractionFactory.Get.weak_map_str_ =
      [("weakcoopersarkarmertsch", WeakCooperSarkarMertsch.create)] := rfl

/-- The enum-to-constructor map of the `WeakInteractionFactory` singleton. -/
theorem WeakInteractionFactory.Get_weak_map_enum :
    WeakInteractionFactory.Get.weak_map_enum_ =
      [(.CooperSarkarMertsch, WeakCooperSarkarMertsch.create)] := rfl

/-- A name is found in a one-entry map only if it is the key of that entry. -/
theorem mapFind_single_isSome {ν : Type} (k key : String) (v : ν)
    (h : (mapFind [(k, v)] key).isSome = true) : key = k := by
  by_cases hk : k = key
  · exact hk.symm
  · simp [mapFind, hk] at h

/-- C13: in the registries as constructed the name/enum association is
bidirectional.  For every enum `e` registered in the enum map,
`GetStringFromEnum(e)` returns a name and `GetEnumFromString` of that name is
`e`; for every name `n` whose lower-cased form is registered in the name map
(any letter case), `GetEnumFromString(n)` returns an enum and
`GetStringFromEnum` of it is `lowercase(n)`.  This holds for `PhotoPairFactory`,
for `WeakInteractionFactory` and for `GetPhotoAngleEnumFromString` /
`GetStringFromPhotoAngleEnum`. -/
theorem registry_name_enum_bidirectional :
    (∀ e : PhotoPairFactory.Enum,
      (mapFind PhotoPairFactory.Get.photopair_map_enum_ e).isSome = true →
      ∃ name, PhotoPairFactory.Get.GetStringFromEnum e = .ok name ∧
        PhotoPairFactory.Get.GetEnumFromString name = .ok e) ∧
    (∀ n : String,
      (mapFind PhotoPairFactory.Get.photopair_map_str_ (name_lower n)).isSome = true →
      ∃ e, PhotoPairFactory.Get.GetEnumFromString n = .ok e ∧
        PhotoPairFactory.Get.GetStringFromEnum e = .ok (name_lower n)) ∧
    (∀ e : WeakInteractionFactory.Enum,
      (mapFind WeakInteractionFactory.Get.weak_map_enum_ e).isSome = true →
      ∃ name, WeakInteractionFactory.Get.GetStringFromEnum e = .ok name ∧
        WeakInteractionFactory.Get.GetEnumFromString name = .ok e) ∧
    (∀ n : String,
      (mapFind WeakInteractionFactory.Get.weak_map_str_ (name_lower n)).isSome = true →
      ∃ e, WeakInteractionFactory.Get.GetEnumFromString n = .ok e ∧
        WeakInteractionFactory.Get.GetStringFromEnum e = .ok (name_lower n)) ∧
    (∀ a : PhotoPairFactory.PhotoAngle,
      (mapFind PhotoPairFactory.Get.photo_angle_map_enum_ a).isSome = true →
      ∃ name, PhotoPairFactory.Get.GetStringFromPhotoAngleEnum a = .ok name ∧
        PhotoPairFactory.Get.GetPhotoAngleEnumFromString name = .ok a) ∧
    (∀ n : String,
      (mapFind PhotoPairFactory.Get.photo_angle_map_str_ (name_lower n)).isSome = true →
      ∃ a, PhotoPairFactory.Get.GetPhotoAngleEnumFromString n = .ok a ∧
        PhotoPairFactory.Get.GetStringFromPhotoAngleEnum a = .ok (name_lower n)) := by
  refine ⟨?_, ?_, ?_, ?_, ?_, ?_⟩
  · intro e h
    cases e with
    | Fail => exact absurd h (by decide)
    | Tsai => exact ⟨"photopairtsai", by decide, by decide⟩
  · intro n h
    rw [PhotoPairFactory.Get_photopair_map_str] at h
    have hn := mapFind_single_isSome _ _ _ h
    refine ⟨.Tsai, ?_, ?_⟩
    · unfold PhotoPairFactory.GetEnumFromString
      rw [hn]
      rfl
    · rw [hn]
      decide
  · intro e h
    cases e with
    | Fail => exact absurd h (by decide)
    | CooperSarkarMertsch => exact ⟨"weakcoopersarkarmertsch", by decide, by decide⟩
  · intro n h
    rw [WeakInteractionFactory.Get_weak_map_str] at h
    have hn := mapFind_single_isSome _ _ _ h
    refine ⟨.CooperSarkarMertsch, ?_, ?_⟩
    · unfold WeakInteractionFactory.GetEnumFromString
      rw [hn]
      rfl
    · rw [hn]
      decide
  · intro a _
    cases a with
    | PhotoAngleTsaiIntegral => exact ⟨"photoangletsaiintegral", by decide, by decide⟩
    | PhotoAngleNoDeflection => exact ⟨"photoanglenodeflection", by decide, by decide⟩
    | PhotoAngleEGS => exact ⟨"photoangleegs", by decide, by decide⟩
  · intro n h
    rw [PhotoPairFactory.Get_photo_angle_map_str] at h
    unfold PhotoPairFactory.GetPhotoAngleEnumFromString
    by_cases h1 : "photoangletsaiintegral" = name_lower n
    · refine ⟨.PhotoAngleTsaiIntegral, ?_, ?_⟩
      · rw [← h1]
        rfl
      · rw [← h1]
        decide
    · by_cases h2 : "photoanglenodeflection" = name_lower n
      · refine ⟨.PhotoAngleNoDeflection, ?_, ?_⟩
        · rw [← h2]
          rfl
        · rw [← h2]
          decide
      · by_cases h3 : "photoangleegs" = name_lower n
        · refine ⟨.PhotoAngleEGS, ?_, ?_⟩
          · rw [← h3]
            rfl
          · rw [← h3]
            decide
        · simp [mapFind, h1, h2, h3] at h

/-- C13 at the enum `Tsai` and the name `"PhotoPairTsai"`. -/
theorem registry_name_enum_bidirectional_witness :
    (mapFind PhotoPairFactory.Get.photopair_map_enum_
        PhotoPairFactory.Enum.Tsai).isSome = true ∧
    (mapFind PhotoPairFactory.Get.photopair_map_str_
        (name_lower "PhotoPairTsai")).isSome = true ∧
    (∃ name, PhotoPairFactory.Get.GetStringFromEnum .Tsai = .ok name ∧
        PhotoPairFactory.Get.GetEnumFromString name = .ok .Tsai) ∧
    (∃ e, PhotoPairFactory.Get.GetEnumFromString "PhotoPairTsai" = .ok e ∧
        PhotoPairFactory.Get.GetStringFromEnum e = .ok (name_lower "PhotoPairTsai")) :=
  ⟨by decide, by decide,
    registry_name_enum_bidirectional.1 .Tsai (by decide),
    registry_name_enum_bidirectional.2.1 "PhotoPairTsai" (by decide)⟩

end PROPOSAL

/-! ## Theorems: assertions of UtilityInterpolant -/

namespace PROPOSAL
namespace UtilityInterpolant

/-- A violated assertion stops `Calculate`, whatever the state of the object. -/
theorem Calculate_assertion (IPREC : ℚ) (u : UtilityInterpolant) (Ei Ef rnd : ℚ)
    (h : Ef > Ei ∨ Ef < u.lower_lim) :
    Calculate IPREC u Ei Ef rnd = .error .assertion := by
  unfold Calculate
  by_cases h1 : Ei ≥ Ef
  · rcases h with h | h
    · exact absurd h1 (not_le.mpr h)
    · rw [if_neg (not_not.mpr h1), if_pos (not_le.mpr h)]
  · rw [if_pos h1]

/-- C14: `Calculate(Ei, Ef, rnd)` stops at an assertion whenever `Ef > Ei` or
`Ef < lower_lim` (in every state of the object), and once the table is built it
returns a value for every `lower_lim ≤ Ef ≤ Ei`: with a table installed it
fails if and only if `Ef > Ei` or `Ef < lower_lim`. -/
theorem Calculate_fails_iff (IPREC : ℚ) (u : UtilityInterpolant) (table : Interpolant)
    (Ei Ef rnd : ℚ) (htab : u.interpolant_ = some table) :
    (∀ u2 : UtilityInterpolant, (Ef > Ei ∨ Ef < u2.lower_lim) →
      Calculate IPREC u2 Ei Ef rnd = .error .assertion) ∧
    ((u.lower_lim ≤ Ef ∧ Ef ≤ Ei) →
      ∃ value u1, Calculate IPREC u Ei Ef rnd = .ok (value, u1)) ∧
    ((∃ e, Calculate IPREC u Ei Ef rnd = .error e) ↔ (Ef > Ei ∨ Ef < u.lower_lim)) := by
  have hok : (u.lower_lim ≤ Ef ∧ Ef ≤ Ei) →
      ∃ value u1, Calculate IPREC u Ei Ef rnd = .ok (value, u1) := by
    intro h
    rw [Calculate_unfold IPREC u table Ei Ef rnd htab h.2 h.1]
    by_cases hc : Ei - Ef < Ei * IPREC
    · exact ⟨_, _, by rw [if_pos hc]⟩
    · exact ⟨_, _, by rw [if_neg hc]⟩
  refine ⟨fun u2 h => Calculate_assertion IPREC u2 Ei Ef rnd h, hok, ?_, ?_⟩
  · rintro ⟨e, he⟩
    by_contra hcon
    rw [not_or, not_lt, not_lt] at hcon
    obtain ⟨value, u1, hv⟩ := hok ⟨hcon.2, hcon.1⟩
    rw [hv] at he
    cases he
  · intro h
    exact ⟨.assertion, Calculate_assertion IPREC u Ei Ef rnd h⟩

/-- C14 at the sample interpolant over `[1, ∞)` with `Ei = 10`, `Ef = 5`. -/
theorem Calculate_fails_iff_witness :
    sampleUtility.interpolant_ = some idTable ∧
    ((∀ u2 : UtilityInterpolant, ((5 : ℚ) > 10 ∨ (5 : ℚ) < u2.lower_lim) →
      Calculate (1 / 1000000) u2 10 5 0 = .error .assertion) ∧
    ((sampleUtility.lower_lim ≤ 5 ∧ (5 : ℚ) ≤ 10) →
      ∃ value u1, Calculate (1 / 1000000) sampleUtility 10 5 0 = .ok (value, u1)) ∧
    ((∃ e, Calculate (1 / 1000000) sampleUtility 10 5 0 = .error e) ↔
      ((5 : ℚ) > 10 ∨ (5 : ℚ) < sampleUtility.lower_lim))) :=
  ⟨rfl, Calculate_fails_iff (1 / 1000000) sampleUtility idTable 10 5 0 rfl⟩

/-- C15: for a negative random draw `rnd < 0`, `GetUpperLimit(Ei, rnd)` stops at
its assertion for every `Ei` and every state of the object: whatever the memo
holds and whether or not a table is installed, the outcome is the assertion
failure, so neither the memo nor the table is reached. -/
theorem GetUpperLimit_negative_rnd (IPREC : ℚ) (u : UtilityInterpolant) (Ei rnd : ℚ)
    (h : rnd < 0) :
    GetUpperLimit IPREC u Ei rnd = .error .assertion ∧
      ∀ (table : Option Interpolant) (memo : ℚ × ℚ),
        GetUpperLimit IPREC { u with interpolant_ := table, upper_limit := memo } Ei rnd
          = .error .assertion := by
  constructor
  · unfold GetUpperLimit
    rw [if_pos (not_le.mpr h)]
  · intro table memo
    unfold GetUpperLimit
    rw [if_pos (not_le.mpr h)]

/-- C15 at `rnd = -1`, `Ei = 10` on the sample interpolant. -/
theorem GetUpperLimit_negative_rnd_witness :
    (-1 : ℚ) < 0 ∧
      (GetUpperLimit (1 / 1000000) sampleUtility 10 (-1) = .error .assertion ∧
        ∀ (table : Option Interpolant) (memo : ℚ × ℚ),
          GetUpperLimit (1 / 1000000)
            { sampleUtility with interpolant_ := table, upper_limit := memo } 10 (-1)
            = .error .assertion) :=
  ⟨by norm_num, GetUpperLimit_negative_rnd (1 / 1000000) sampleUtility 10 (-1)
    (by norm_num)⟩

end UtilityInterpolant
end PROPOSAL

/-! ## Theorems: Parametrization -/

namespace PROPOSAL

/-- C20: `SetCurrentComponent(i)` changes only the component index.  For every
parametrization and every index `i`, `GetParticleDef`, `GetMedium`,
`GetEnergyCuts` and `GetMultiplier` return the same values before and after,
the component vector is the same, the index afterwards is `i`, and setting the
index back to its former value restores the object. -/
theorem Parametrization.SetCurrentComponent_frame (self : Parametrization) (i : ℤ) :
    (self.SetCurrentComponent i).GetParticleDef = self.GetParticleDef ∧
    (self.SetCurrentComponent i).GetMedium = self.GetMedium ∧
    (self.SetCurrentComponent i).GetEnergyCuts = self.GetEnergyCuts ∧
    (self.SetCurrentComponent i).GetMultiplier = self.GetMultiplier ∧
    (self.SetCurrentComponent i).components_ = self.components_ ∧
    (self.SetCurrentComponent i).component_index_ = i ∧
    (self.SetCurrentComponent i).SetCurrentComponent self.component_index_ = self :=
  ⟨rfl, rfl, rfl, rfl, rfl, rfl, rfl⟩

end PROPOSAL

/-! ## Theorems: comparison of parametrizations and evaluators -/

namespace PROPOSAL

/-- Two parametrizations compare equal exactly when they stand for the same
configuration. -/
theorem Photonuclear.operator_eq_iff (a b : Photonuclear) :
    a.operator_eq b = true ↔ a.configuration = b.configuration := by
  unfold Photonuclear.operator_eq Photonuclear.configuration
  simp only [Bool.and_eq_true, decide_eq_true_eq, Parametrization.GetParticleDef,
    Parametrization.GetMedium, Parametrization.GetEnergyCuts,
    Parametrization.GetMultiplier, Configuration.mk.injEq]
  constructor
  · rintro ⟨⟨⟨⟨⟨h1, h2⟩, h3⟩, h4⟩, h5⟩, h6⟩
    exact ⟨h1, h2, h3, h4, h6, h5⟩
  · rintro ⟨h1, h2, h3, h4, h6, h5⟩
    exact ⟨⟨⟨⟨⟨h1, h2⟩, h3⟩, h4⟩, h5⟩, h6⟩

/-- A built parametrization stands for the configuration it was built from. -/
theorem Photonuclear.configuration_create (c : Configuration) :
    (Photonuclear.create c).configuration = c := rfl

/-- A copy stands for the same configuration as its original. -/
theorem Photonuclear.configuration_copy (p : Photonuclear) :
    p.copy.configuration = p.configuration := rfl

/-- C16: identical configurations compare equal.  For every configuration
(kind, particle, medium, cuts, process option, multiplier), two parametrizations
built from it are `==`; two integration evaluators and two interpolation
evaluators built from the same parametrization are `==`; and a copy-constructed
parametrization or evaluator is `==` to its original. -/
theorem identical_configurations_compare_equal (c : Configuration) (p : Photonuclear)
    (interpolation_def : InterpolationDef) :
    (Photonuclear.create c).operator_eq (Photonuclear.create c) = true ∧
    (PhotoIntegral.create p).operator_eq (PhotoIntegral.create p) = true ∧
    (PhotoInterpolant.create p interpolation_def).operator_eq
      (PhotoInterpolant.create p interpolation_def) = true ∧
    p.operator_eq p.copy = true ∧
    (PhotoIntegral.create p).operator_eq (PhotoIntegral.create p).copy = true ∧
    (PhotoInterpolant.create p interpolation_def).operator_eq
      (PhotoInterpolant.create p interpolation_def).copy = true := by
  refine ⟨?_, ?_, ?_, ?_, ?_, ?_⟩
  · exact (Photonuclear.operator_eq_iff _ _).mpr rfl
  · exact (Photonuclear.operator_eq_iff _ _).mpr rfl
  · exact (Photonuclear.operator_eq_iff _ _).mpr rfl
  · exact (Photonuclear.operator_eq_iff _ _).mpr rfl
  · exact (Photonuclear.operator_eq_iff _ _).mpr rfl
  · exact (Photonuclear.operator_eq_iff _ _).mpr rfl

/-- C17: configurations that differ in the parametrization kind, the particle,
the medium, the energy cuts, the multiplier or the process-specific option (in
particular in exactly one of them) compare unequal: `operator!=` is true for the
parametrizations built from them and for the integration and interpolation
evaluators built from those. -/
theorem different_configurations_compare_unequal (c1 c2 : Configuration)
    (d1 d2 : InterpolationDef)
    (h : c1.kind ≠ c2.kind ∨ c1.particle_def ≠ c2.particle_def ∨ c1.medium ≠ c2.medium ∨
      c1.cuts ≠ c2.cuts ∨ c1.multiplier ≠ c2.multiplier ∨ c1.option ≠ c2.option) :
    (Photonuclear.create c1).operator_ne (Photonuclear.create c2) = true ∧
    (PhotoIntegral.create (Photonuclear.create c1)).operator_ne
      (PhotoIntegral.create (Photonuclear.create c2)) = true ∧
    (PhotoInterpolant.create (Photonuclear.create c1) d1).operator_ne
      (PhotoInterpolant.create (Photonuclear.create c2) d2) = true := by
  have hne : c1 ≠ c2 := by
    intro heq
    subst heq
    simp at h
  have hfalse : ∀ a b : Photonuclear, a.configuration = c1 → b.configuration = c2 →
      a.operator_eq b = false := by
    intro a b ha hb
    rw [Bool.eq_false_iff]
    intro heq
    rw [Photonuclear.operator_eq_iff, ha, hb] at heq
    exact hne heq
  refine ⟨?_, ?_, ?_⟩
  · unfold Photonuclear.operator_ne
    rw [hfalse (Photonuclear.create c1) (Photonuclear.create c2) rfl rfl]
    rfl
  · unfold PhotoIntegral.operator_ne PhotoIntegral.operator_eq PhotoIntegral.create
    rw [hfalse (Photonuclear.create c1).copy (Photonuclear.create c2).copy rfl rfl]
    rfl
  · unfold PhotoInterpolant.operator_ne PhotoInterpolant.operator_eq
      PhotoInterpolant.create
    rw [hfalse (Photonuclear.create c1).copy (Photonuclear.create c2).copy rfl rfl]
    rfl

/-- C17 at the sample configuration and the same configuration with multiplier
`2`. -/
theorem different_configurations_compare_unequal_witness :
    (sampleConfiguration.multiplier ≠ ({ sampleConfiguration with multiplier := 2 } :
        Configuration).multiplier) ∧
    ((Photonuclear.create sampleConfiguration).operator_ne
        (Photonuclear.create { sampleConfiguration with multiplier := 2 }) = true ∧
      (PhotoIntegral.create (Photonuclear.create sampleConfiguration)).operator_ne
        (PhotoIntegral.create
          (Photonuclear.create { sampleConfiguration with multiplier := 2 })) = true ∧
      (PhotoInterpolant.create (Photonuclear.create sampleConfiguration)
          sampleInterpolationDef).operator_ne
        (PhotoInterpolant.create
          (Photonuclear.create { sampleConfiguration with multiplier := 2 })
          sampleInterpolationDef) = true) :=
  ⟨by norm_num [sampleConfiguration],
    different_configurations_compare_unequal sampleConfiguration
      { sampleConfiguration with multiplier := 2 } sampleInterpolationDef
      sampleInterpolationDef
      (Or.inr (Or.inr (Or.inr (Or.inr (Or.inl (by norm_num [sampleConfiguration]))))))⟩

end PROPOSAL

/-! ## Theorems: branches of Calculate and GetUpperLimit -/

namespace PROPOSAL
namespace UtilityInterpolant

/-- With both assertions satisfied and a table installed, the result of
`Calculate` is the `return` statement selected by `calculateBranch`. -/
theorem Calculate_by_branch (IPREC : ℚ) (u : UtilityInterpolant) (table : Interpolant)
    (Ei Ef rnd : ℚ) (htab : u.interpolant_ = some table)
    (h1 : Ei ≥ Ef) (h2 : Ef ≥ u.lower_lim) :
    Calculate IPREC u Ei Ef rnd =
      match calculateBranch IPREC Ei Ef with
      | .firstOrder =>
        .ok (u.FunctionToIntegral ((Ei + Ei) / 2) * (Ef - Ei),
              { u with upper_limit := (table.Interpolate Ei, Ei) })
      | .tableDifference =>
        .ok (table.Interpolate Ei - table.Interpolate Ef,
              { u with upper_limit := (table.Interpolate Ei, Ei) }) := by
  rw [Calculate_unfold IPREC u table Ei Ef rnd htab h1 h2]
  unfold calculateBranch
  by_cases hc : Ei - Ef < Ei * IPREC
  · simp only [if_pos hc]
  · simp only [if_neg hc]

/-- With `rnd ≥ 0`, `Ei ≥ lower_lim`, a table installed and a consistent memo,
the result of `GetUpperLimit` is the one selected by `upperLimitPath` at the
inverted energy. -/
theorem GetUpperLimit_by_path (IPREC : ℚ) (u : UtilityInterpolant) (table : Interpolant)
    (Ei rnd : ℚ) (htab : u.interpolant_ = some table) (hmemo : MemoConsistent u)
    (hr : rnd ≥ 0) (hE : Ei ≥ u.lower_lim) :
    GetUpperLimit IPREC u Ei rnd =
      match upperLimitPath IPREC Ei (table.FindLimit (table.Interpolate Ei - rnd)) with
      | .tableInversion =>
        .ok (table.FindLimit (table.Interpolate Ei - rnd),
              { u with upper_limit := (table.Interpolate Ei, Ei) })
      | .twoPassFallback =>
        .ok (Ei + rnd / u.FunctionToIntegral
                (Ei + 0.5 * rnd / u.FunctionToIntegral Ei),
              { u with upper_limit := (table.Interpolate Ei, Ei) }) := by
  rw [GetUpperLimit_unfold IPREC u table Ei rnd htab hmemo hr hE]
  unfold upperLimitPath
  by_cases hc : Ei - table.FindLimit (table.Interpolate Ei - rnd) > Ei * IPREC
  · simp only [if_pos hc]
  · simp only [if_neg hc]

/-! ### C21: the two thresholds -/

/-- C21 fails at the boundary.  With `IPREC = 1e-6`, `Ei = 1000000 ≥ 0` and the
candidate `E' = 999999 ≤ Ei`, so that `Ei - E' = 1 = Ei * IPREC`:
`GetUpperLimit` does not accept `E'` (its test `Ei - E' > Ei * IPREC` is false)
while `Calculate(Ei, E', _)` uses the table-difference branch (its test
`Ei - E' < Ei * IPREC` is false).  On the sample interpolant with the identity
table and `rnd = 1`, the inverted energy is `999999`; `GetUpperLimit` returns the
two-pass estimate, and `Calculate(1000000, 999999, _)` returns the table
difference `1`. -/
theorem threshold_boundary_mismatch :
    (1000000 : ℚ) ≥ 0 ∧ (999999 : ℚ) ≤ 1000000 ∧
    (1000000 : ℚ) - 999999 = 1000000 * (1 / 1000000) ∧
    upperLimitPath (1 / 1000000) 1000000 999999 = .twoPassFallback ∧
    calculateBranch (1 / 1000000) 1000000 999999 = .tableDifference ∧
    idTable.FindLimit (idTable.Interpolate 1000000 - 1) = 999999 ∧
    GetUpperLimit (1 / 1000000) sampleUtility 1000000 1 =
      .ok (1000000 + 1 / (1000000 + 0.5 * 1 / 1000000),
            { sampleUtility with upper_limit := (1000000, 1000000) }) ∧
    (1000000 + 1 / (1000000 + 0.5 * 1 / 1000000) : ℚ) ≠ 999999 ∧
    Calculate (1 / 1000000) sampleUtility 1000000 999999 0 =
      .ok (1, { sampleUtility with upper_limit := (1000000, 1000000) }) := by
  refine ⟨by norm_num, by norm_num, by norm_num, ?_, ?_, by norm_num [idTable], ?_,
    by norm_num, ?_⟩
  · unfold upperLimitPath
    rw [if_neg (by norm_num)]
  · unfold calculateBranch
    rw [if_neg (by norm_num)]
  · rw [GetUpperLimit_unfold (1 / 1000000) sampleUtility idTable 1000000 1 rfl
      sampleUtility_memoConsistent (by norm_num) (by norm_num [sampleUtility]),
      if_neg (by norm_num [idTable])]
    simp only [sampleUtility, idTable]
  · rw [Calculate_unfold (1 / 1000000) sampleUtility idTable 1000000 999999 0 rfl
      (by norm_num) (by norm_num [sampleUtility]), if_neg (by norm_num)]
    norm_num [idTable]

/-- C21, amended: `Calculate` and `GetUpperLimit` compare with the same
threshold `Ei * IPREC`.  For every `Ei` and candidate `E'` off the boundary
(`Ei - E' ≠ Ei * IPREC`), `GetUpperLimit` accepts `E'` if and only if
`Calculate(Ei, E', _)` uses the table-difference branch; in the boundary case
`Ei - E' = Ei * IPREC`, `GetUpperLimit` falls back while `Calculate` uses the
table-difference branch. -/
theorem threshold_agreement_off_boundary (IPREC Ei E' : ℚ) :
    (Ei - E' ≠ Ei * IPREC →
      (upperLimitPath IPREC Ei E' = .tableInversion ↔
        calculateBranch IPREC Ei E' = .tableDifference)) ∧
    (Ei - E' = Ei * IPREC →
      upperLimitPath IPREC Ei E' = .twoPassFallback ∧
        calculateBranch IPREC Ei E' = .tableDifference) := by
  unfold upperLimitPath calculateBranch
  constructor
  · intro hne
    by_cases hgt : Ei - E' > Ei * IPREC
    · rw [if_pos hgt, if_neg (not_lt.mpr (le_of_lt hgt))]
      simp
    · have hlt : Ei - E' < Ei * IPREC := lt_of_le_of_ne (not_lt.mp hgt) hne
      rw [if_neg hgt, if_pos hlt]
      simp
  · intro heq
    rw [if_neg (not_lt.mpr (le_of_eq heq)), if_neg (not_lt.mpr (le_of_eq heq.symm))]
    exact ⟨rfl, rfl⟩

/-- C21 (amended) at `Ei = 10`, `E' = 5`, `IPREC = 1e-6`, off the boundary: the
candidate is accepted and `Calculate` uses the table difference. -/
theorem threshold_agreement_off_boundary_witness :
    (10 : ℚ) - 5 ≠ 10 * (1 / 1000000) ∧
    (upperLimitPath (1 / 1000000) 10 5 = .tableInversion ↔
      calculateBranch (1 / 1000000) 10 5 = .tableDifference) :=
  ⟨by norm_num,
    (threshold_agreement_off_boundary (1 / 1000000) 10 5).1 (by norm_num)⟩

end UtilityInterpolant
end PROPOSAL

/-! ## Theorems: algebra of Calculate and GetUpperLimit -/

namespace PROPOSAL
namespace UtilityInterpolant

/-- The constant-integrand interpolant has a consistent memo: it holds `(6, 4)`
and its table gives `-2 * (1 - 4) = 6` at `4`. -/
theorem constantUtility_memoConsistent : MemoConsistent constantUtility := by
  intro table h
  have ht : table = linearTable (-2) 1 := by
    simp only [constantUtility, Option.some.injEq] at h
    exact h.symm
  subst ht
  norm_num [constantUtility, linearTable]

/-- C24: for a constant integrand `f = c` and the exact cumulative table
`T(E) = c * (lower_lim - E)`, `Calculate(Ei, Ef, _)` returns `c * (Ef - Ei)` for
every `lower_lim ≤ Ef ≤ Ei`, on either side of the IPREC threshold: the value of
the first-order branch and the value of the table-difference branch are both
`c * (Ef - Ei)`. -/
theorem Calculate_constant_integrand (IPREC : ℚ) (u : UtilityInterpolant)
    (table : Interpolant) (c Ei Ef rnd : ℚ) (htab : u.interpolant_ = some table)
    (hf : ∀ E, u.FunctionToIntegral E = c)
    (hT : ∀ E, table.Interpolate E = c * (u.lower_lim - E))
    (h2 : u.lower_lim ≤ Ef) (h1 : Ef ≤ Ei) :
    Calculate IPREC u Ei Ef rnd =
        .ok (c * (Ef - Ei), { u with upper_limit := (table.Interpolate Ei, Ei) }) ∧
      u.FunctionToIntegral ((Ei + Ei) / 2) * (Ef - Ei) = c * (Ef - Ei) ∧
      table.Interpolate Ei - table.Interpolate Ef = c * (Ef - Ei) := by
  have hfirst : u.FunctionToIntegral ((Ei + Ei) / 2) * (Ef - Ei) = c * (Ef - Ei) := by
    rw [hf]
  have htable : table.Interpolate Ei - table.Interpolate Ef = c * (Ef - Ei) := by
    rw [hT, hT]
    ring
  refine ⟨?_, hfirst, htable⟩
  rw [Calculate_unfold IPREC u table Ei Ef rnd htab h1 h2]
  by_cases hc : Ei - Ef < Ei * IPREC
  · rw [if_pos hc, hfirst]
  · rw [if_neg hc, htable]

/-- C24 at the constant integrand `-2` over `[1, ∞)`, on the far side
(`Ei = 10`, `Ef = 5`) of the threshold. -/
theorem Calculate_constant_integrand_witness :
    (∀ E, constantUtility.FunctionToIntegral E = -2) ∧
    (∀ E, (linearTable (-2) 1).Interpolate E = -2 * (constantUtility.lower_lim - E)) ∧
    constantUtility.lower_lim ≤ 5 ∧ (5 : ℚ) ≤ 10 ∧
    calculateBranch (1 / 1000000) 10 5 = .tableDifference ∧
    (Calculate (1 / 1000000) constantUtility 10 5 0 =
        .ok (-2 * (5 - 10),
          { constantUtility with
            upper_limit := ((linearTable (-2) 1).Interpolate 10, 10) }) ∧
      constantUtility.FunctionToIntegral ((10 + 10) / 2) * (5 - 10) = -2 * (5 - 10) ∧
      (linearTable (-2) 1).Interpolate 10 - (linearTable (-2) 1).Interpolate 5
        = -2 * (5 - 10)) :=
  ⟨fun _ => rfl, fun _ => rfl, by norm_num [constantUtility], by norm_num,
    by unfold calculateBranch; rw [if_neg (by norm_num)],
    Calculate_constant_integrand (1 / 1000000) constantUtility (linearTable (-2) 1)
      (-2) 10 5 0 rfl (fun _ => rfl) (fun _ => rfl) (by norm_num [constantUtility])
      (by norm_num)⟩

/-- C25 fails on a stale memo.  An interpolant with the constant integrand `-2`
over `[1, ∞)` (`IPREC = 1e-6`) first carries the identity table;
`Calculate(10, 5, _)` followed by the `BuildTables` that installs the exact table
`T(E) = -2 * (1 - E)` with its exact inverse leaves the memo `(10, 10)`.  For
`Ei = 10 ≥ lower_lim` and `rnd = 4 ≥ 0`, `GetUpperLimit(10, 4)` inverts the memo
value and returns `4`, not `Ei + rnd / c = 8`. -/
theorem constant_integrand_fails_stale_memo :
    afterCalls (1 / 1000000) constantStartUtility
        [.Calculate 10 5 0, .BuildTables (linearTable (-2) 1)]
      = .ok staleConstantUtility ∧
    staleConstantUtility.interpolant_ = some (linearTable (-2) 1) ∧
    (-2 : ℚ) ≠ 0 ∧
    (∀ E, staleConstantUtility.FunctionToIntegral E = -2) ∧
    (∀ E, (linearTable (-2) 1).Interpolate E
      = -2 * (staleConstantUtility.lower_lim - E)) ∧
    (∀ y, (linearTable (-2) 1).Interpolate ((linearTable (-2) 1).FindLimit y) = y) ∧
    (10 : ℚ) ≥ staleConstantUtility.lower_lim ∧ (4 : ℚ) ≥ 0 ∧
    GetUpperLimit (1 / 1000000) staleConstantUtility 10 4
      = .ok (4, staleConstantUtility) ∧
    (10 + 4 / (-2) : ℚ) = 8 ∧ (4 : ℚ) ≠ 8 := by
  refine ⟨afterCalls_staleConstantUtility, rfl, by norm_num, fun _ => rfl,
    fun _ => rfl, fun y => by simp only [linearTable]; ring,
    by norm_num [staleConstantUtility], by norm_num, ?_, by norm_num, by norm_num⟩
  unfold GetUpperLimit
  norm_num [linearTable, staleConstantUtility]

/-- C25, amended: for a constant integrand `f = c` with `c ≠ 0`, the exact
cumulative table `T(E) = c * (lower_lim - E)` installed with a `FindLimit` that
inverts it exactly, and a memo that holds another energy than `Ei` or holds `Ei`
together with `Table(Ei)`: `GetUpperLimit(Ei, rnd)` returns `Ei + rnd / c` for
every `Ei ≥ lower_lim` and `rnd ≥ 0`; the inverted energy and the two-pass
estimate are both `Ei + rnd / c`. -/
theorem GetUpperLimit_constant_integrand (IPREC : ℚ) (u : UtilityInterpolant)
    (table : Interpolant) (c Ei rnd : ℚ) (htab : u.interpolant_ = some table)
    (hmemo : u.upper_limit.2 = Ei → u.upper_limit.1 = table.Interpolate Ei)
    (hc : c ≠ 0)
    (hf : ∀ E, u.FunctionToIntegral E = c)
    (hT : ∀ E, table.Interpolate E = c * (u.lower_lim - E))
    (hinv : ∀ y, table.Interpolate (table.FindLimit y) = y)
    (hE : Ei ≥ u.lower_lim) (hr : rnd ≥ 0) :
    GetUpperLimit IPREC u Ei rnd =
        .ok (Ei + rnd / c, { u with upper_limit := (table.Interpolate Ei, Ei) }) ∧
      table.FindLimit (table.Interpolate Ei - rnd) = Ei + rnd / c ∧
      Ei + rnd / u.FunctionToIntegral (Ei + 0.5 * rnd / u.FunctionToIntegral Ei)
        = Ei + rnd / c := by
  have hL : table.FindLimit (table.Interpolate Ei - rnd) = Ei + rnd / c := by
    have h := hinv (table.Interpolate Ei - rnd)
    rw [hT (table.FindLimit (table.Interpolate Ei - rnd)), hT Ei] at h
    have h3 : c * (table.FindLimit (c * (u.lower_lim - Ei) - rnd)) = c * Ei + rnd := by
      linarith
    rw [hT Ei]
    field_simp
    linarith
  have hfb : Ei + rnd / u.FunctionToIntegral (Ei + 0.5 * rnd / u.FunctionToIntegral Ei)
      = Ei + rnd / c := by
    rw [hf]
  refine ⟨?_, hL, hfb⟩
  rw [GetUpperLimit_unfold_of_memo IPREC u table Ei rnd htab hmemo hr hE]
  by_cases hp : Ei - table.FindLimit (table.Interpolate Ei - rnd) > Ei * IPREC
  · rw [if_pos hp, hL]
  · rw [if_neg hp, hfb]

/-- C25 (amended) at the constant integrand `-2` over `[1, ∞)` with a memo that
holds the energy `4`, `Ei = 10` and `rnd = 4`: the inverted energy `8` is
accepted and equals `10 + 4 / (-2)`. -/
theorem GetUpperLimit_constant_integrand_witness :
    constantUtility.interpolant_ = some (linearTable (-2) 1) ∧
    (constantUtility.upper_limit.2 = 10 →
      constantUtility.upper_limit.1 = (linearTable (-2) 1).Interpolate 10) ∧
    (-2 : ℚ) ≠ 0 ∧ (∀ E, constantUtility.FunctionToIntegral E = -2) ∧
    (∀ E, (linearTable (-2) 1).Interpolate E = -2 * (constantUtility.lower_lim - E)) ∧
    (∀ y, (linearTable (-2) 1).Interpolate ((linearTable (-2) 1).FindLimit y) = y) ∧
    (10 : ℚ) ≥ constantUtility.lower_lim ∧ (4 : ℚ) ≥ 0 ∧
    upperLimitPath (1 / 1000000) 10 8 = .tableInversion ∧
    (GetUpperLimit (1 / 1000000) constantUtility 10 4 =
        .ok (10 + 4 / (-2),
          { constantUtility with
            upper_limit := ((linearTable (-2) 1).Interpolate 10, 10) }) ∧
      (linearTable (-2) 1).FindLimit ((linearTable (-2) 1).Interpolate 10 - 4)
        = 10 + 4 / (-2) ∧
      10 + 4 / constantUtility.FunctionToIntegral
          (10 + 0.5 * 4 / constantUtility.FunctionToIntegral 10) = 10 + 4 / (-2)) :=
  ⟨rfl, fun h => absurd h (by norm_num [constantUtility]), by norm_num, fun _ => rfl,
    fun _ => rfl, fun y => by simp only [linearTable]; ring,
    by norm_num [constantUtility], by norm_num,
    by unfold upperLimitPath; rw [if_pos (by norm_num)],
    GetUpperLimit_constant_integrand (1 / 1000000) constantUtility (linearTable (-2) 1)
      (-2) 10 4 rfl (fun h => absurd h (by norm_num [constantUtility])) (by norm_num)
      (fun _ => rfl) (fun _ => rfl) (fun y => by simp only [linearTable]; ring)
      (by norm_num [constantUtility]) (by norm_num)⟩

end UtilityInterpolant
end PROPOSAL

/-! ## Theorems: zero-width interval and additivity -/

namespace PROPOSAL
namespace UtilityInterpolant

/-- C26: for every `E ≥ lower_lim` with a table installed,
`Calculate(E, E, rnd)` returns `0`, whichever branch the IPREC test selects;
for `IPREC > 0` the test selects the first-order branch exactly when `E > 0` and
the table difference when `E ≤ 0`. -/
theorem Calculate_zero_width (IPREC : ℚ) (u : UtilityInterpolant) (table : Interpolant)
    (E rnd : ℚ) (htab : u.interpolant_ = some table) (hE : E ≥ u.lower_lim) :
    Calculate IPREC u E E rnd =
        .ok (0, { u with upper_limit := (table.Interpolate E, E) }) ∧
      (0 < IPREC → (calculateBranch IPREC E E = .firstOrder ↔ 0 < E)) ∧
      (0 < IPREC → (calculateBranch IPREC E E = .tableDifference ↔ E ≤ 0)) := by
  refine ⟨?_, ?_, ?_⟩
  · rw [Calculate_unfold IPREC u table E E rnd htab le_rfl hE]
    by_cases hc : E - E < E * IPREC
    · rw [if_pos hc, sub_self, mul_zero]
    · rw [if_neg hc, sub_self]
  · intro hI
    unfold calculateBranch
    rw [sub_self]
    by_cases hpos : 0 < E
    · rw [if_pos (mul_pos hpos hI)]
      simp [hpos]
    · rw [if_neg (not_lt.mpr (mul_nonpos_of_nonpos_of_nonneg (not_lt.mp hpos)
        (le_of_lt hI)))]
      simp [hpos]
  · intro hI
    unfold calculateBranch
    rw [sub_self]
    by_cases hpos : 0 < E
    · rw [if_pos (mul_pos hpos hI)]
      simp [hpos]
    · rw [if_neg (not_lt.mpr (mul_nonpos_of_nonpos_of_nonneg (not_lt.mp hpos)
        (le_of_lt hI)))]
      simp [not_lt.mp hpos]

/-- C26 at `E = 10` on the sample interpolant over `[1, ∞)`. -/
theorem Calculate_zero_width_witness :
    (10 : ℚ) ≥ sampleUtility.lower_lim ∧
    (Calculate (1 / 1000000) sampleUtility 10 10 0 =
        .ok (0, { sampleUtility with upper_limit := (idTable.Interpolate 10, 10) }) ∧
      ((0 : ℚ) < 1 / 1000000 →
        (calculateBranch (1 / 1000000) 10 10 = .firstOrder ↔ (0 : ℚ) < 10)) ∧
      ((0 : ℚ) < 1 / 1000000 →
        (calculateBranch (1 / 1000000) 10 10 = .tableDifference ↔ (10 : ℚ) ≤ 0))) :=
  ⟨by norm_num [sampleUtility],
    Calculate_zero_width (1 / 1000000) sampleUtility idTable 10 0 rfl
      (by norm_num [sampleUtility])⟩

/-- C27: additivity on the table branch.  For `a ≥ b ≥ c ≥ lower_lim` with
`a - b ≥ a * IPREC`, `b - c ≥ b * IPREC` and `a - c ≥ a * IPREC`, the calls
`Calculate(a, b, _)`, `Calculate(b, c, _)` and `Calculate(a, c, _)`, made one
after the other on the same object, return values `v1`, `v2`, `v3` with
`v3 = v1 + v2`; the same holds when each call is made on the initial object. -/
theorem Calculate_additive (IPREC : ℚ) (u : UtilityInterpolant) (table : Interpolant)
    (a b c r1 r2 r3 : ℚ) (htab : u.interpolant_ = some table)
    (hab : a ≥ b) (hbc : b ≥ c) (hc : c ≥ u.lower_lim)
    (sab : a - b ≥ a * IPREC) (sbc : b - c ≥ b * IPREC) (sac : a - c ≥ a * IPREC) :
    (∃ v1 u1 v2 u2 v3 u3,
      Calculate IPREC u a b r1 = .ok (v1, u1) ∧
      Calculate IPREC u1 b c r2 = .ok (v2, u2) ∧
      Calculate IPREC u2 a c r3 = .ok (v3, u3) ∧ v3 = v1 + v2) ∧
    (∃ v1 u1 v2 u2 v3 u3,
      Calculate IPREC u a b r1 = .ok (v1, u1) ∧
      Calculate IPREC u b c r2 = .ok (v2, u2) ∧
      Calculate IPREC u a c r3 = .ok (v3, u3) ∧ v3 = v1 + v2) := by
  have hb : b ≥ u.lower_lim := le_trans hc hbc
  have hac : a ≥ c := le_trans hbc hab
  have key : ∀ (w : UtilityInterpolant), w.interpolant_ = some table →
      w.lower_lim = u.lower_lim → ∀ (x y r : ℚ), x ≥ y → y ≥ u.lower_lim →
      x - y ≥ x * IPREC →
      Calculate IPREC w x y r =
        .ok (table.Interpolate x - table.Interpolate y,
              { w with upper_limit := (table.Interpolate x, x) }) := by
    intro w hw hl x y r hxy hy hs
    rw [Calculate_unfold IPREC w table x y r hw hxy (by rw [hl]; exact hy),
      if_neg (not_lt.mpr hs)]
  constructor
  · refine ⟨_, _, _, _, _, _, key u htab rfl a b r1 hab hb sab,
      key _ htab rfl b c r2 hbc hc sbc, key _ htab rfl a c r3 hac hc sac, ?_⟩
    ring
  · refine ⟨_, _, _, _, _, _, key u htab rfl a b r1 hab hb sab,
      key u htab rfl b c r2 hbc hc sbc, key u htab rfl a c r3 hac hc sac, ?_⟩
    ring

/-- C27 at `a = 10`, `b = 5`, `c = 2` on the sample interpolant over `[1, ∞)`. -/
theorem Calculate_additive_witness :
    (10 : ℚ) ≥ 5 ∧ (5 : ℚ) ≥ 2 ∧ (2 : ℚ) ≥ sampleUtility.lower_lim ∧
    (10 : ℚ) - 5 ≥ 10 * (1 / 1000000) ∧ (5 : ℚ) - 2 ≥ 5 * (1 / 1000000) ∧
    (10 : ℚ) - 2 ≥ 10 * (1 / 1000000) ∧
    ((∃ v1 u1 v2 u2 v3 u3,
      Calculate (1 / 1000000) sampleUtility 10 5 0 = .ok (v1, u1) ∧
      Calculate (1 / 1000000) u1 5 2 0 = .ok (v2, u2) ∧
      Calculate (1 / 1000000) u2 10 2 0 = .ok (v3, u3) ∧ v3 = v1 + v2) ∧
    (∃ v1 u1 v2 u2 v3 u3,
      Calculate (1 / 1000000) sampleUtility 10 5 0 = .ok (v1, u1) ∧
      Calculate (1 / 1000000) sampleUtility 5 2 0 = .ok (v2, u2) ∧
      Calculate (1 / 1000000) sampleUtility 10 2 0 = .ok (v3, u3) ∧ v3 = v1 + v2)) :=
  ⟨by norm_num, by norm_num, by norm_num [sampleUtility], by norm_num, by norm_num,
    by norm_num,
    Calculate_additive (1 / 1000000) sampleUtility idTable 10 5 2 0 0 0 rfl
      (by norm_num) (by norm_num) (by norm_num [sampleUtility]) (by norm_num)
      (by norm_num) (by norm_num)⟩

end UtilityInterpolant

/-! ## Theorems: EpairInterpolant with a positive multiplier -/

/-- C22: for a multiplier `m > 0` and every energy `E`,
`EpairInterpolant::CalculatedEdx(E)` is `m * max(T(E), 0)` with `T` the installed
dEdx table; the result is never negative, and for a fixed table it rescales
linearly with the multiplier: replacing `m` by `k * m` with `k > 0` multiplies
the result by `k`. -/
theorem EpairInterpolant.CalculatedEdx_enabled (self : EpairInterpolant) (energy : ℚ)
    (h : 0 < self.parametrization_.GetMultiplier) :
    self.CalculatedEdx energy =
        self.parametrization_.GetMultiplier
          * max (self.dedx_interpolant_.Interpolate energy) 0 ∧
      0 ≤ self.CalculatedEdx energy ∧
      ∀ k : ℚ, 0 < k →
        ({ self with
            parametrization_ :=
              { self.parametrization_ with
                multiplier_ := k * self.parametrization_.GetMultiplier } } :
          EpairInterpolant).CalculatedEdx energy = k * self.CalculatedEdx energy := by
  have hval : self.CalculatedEdx energy =
      self.parametrization_.GetMultiplier
        * max (self.dedx_interpolant_.Interpolate energy) 0 := by
    unfold EpairInterpolant.CalculatedEdx
    rw [if_neg (not_le.mpr h)]
    norm_num
  refine ⟨hval, ?_, ?_⟩
  · rw [hval]
    exact mul_nonneg (le_of_lt h) (le_max_right _ _)
  · intro k hk
    rw [hval]
    unfold EpairInterpolant.CalculatedEdx
    have hkm : 0 < k * self.parametrization_.GetMultiplier := mul_pos hk h
    simp only [EpairProduction.GetMultiplier] at hkm ⊢
    rw [if_neg (not_le.mpr hkm)]
    norm_num
    ring

/-- C22 at multiplier `3` and energy `1000` with the identity table. -/
theorem EpairInterpolant.CalculatedEdx_enabled_witness :
    0 < enabledEpair.parametrization_.GetMultiplier ∧
    (enabledEpair.CalculatedEdx 1000 =
        enabledEpair.parametrization_.GetMultiplier
          * max (enabledEpair.dedx_interpolant_.Interpolate 1000) 0 ∧
      0 ≤ enabledEpair.CalculatedEdx 1000 ∧
      ∀ k : ℚ, 0 < k →
        ({ enabledEpair with
            parametrization_ :=
              { enabledEpair.parametrization_ with
                multiplier_ := k * enabledEpair.parametrization_.GetMultiplier } } :
          EpairInterpolant).CalculatedEdx 1000 = k * enabledEpair.CalculatedEdx 1000) :=
  ⟨by norm_num [enabledEpair, EpairProduction.GetMultiplier],
    EpairInterpolant.CalculatedEdx_enabled enabledEpair 1000
      (by norm_num [enabledEpair, EpairProduction.GetMultiplier])⟩

end PROPOSAL

/-! ## Theorems: the memo invariant -/

namespace PROPOSAL
namespace UtilityInterpolant

/-- A successful `Calculate` leaves the memo `(Table(Ei), Ei)` for the installed
table and installs no other table. -/
theorem Calculate_ok_state (IPREC : ℚ) (u : UtilityInterpolant) (Ei Ef rnd v : ℚ)
    (u1 : UtilityInterpolant) (h : Calculate IPREC u Ei Ef rnd = .ok (v, u1)) :
    ∃ table, u.interpolant_ = some table ∧
      u1 = { u with upper_limit := (table.Interpolate Ei, Ei) } := by
  unfold Calculate at h
  by_cases h1 : Ei ≥ Ef
  · by_cases h2 : Ef ≥ u.lower_lim
    · rw [if_neg (not_not.mpr h1), if_neg (not_not.mpr h2)] at h
      cases htab : u.interpolant_ with
      | none =>
        rw [htab] at h
        cases h
      | some table =>
        rw [htab] at h
        refine ⟨table, rfl, ?_⟩
        by_cases hc : Ei - Ef < Ei * IPREC
        · simp only [if_pos hc] at h
          obtain ⟨_, h4⟩ := Prod.mk.inj (Except.ok.inj h)
          rw [← h4]
        · simp only [if_neg hc] at h
          obtain ⟨_, h4⟩ := Prod.mk.inj (Except.ok.inj h)
          rw [← h4]
    · rw [if_neg (not_not.mpr h1), if_pos h2] at h
      cases h
  · rw [if_pos h1] at h
    cases h

/-- A successful `Calculate` establishes the memo invariant. -/
theorem Calculate_ok_memoConsistent (IPREC : ℚ) (u : UtilityInterpolant)
    (Ei Ef rnd v : ℚ) (u1 : UtilityInterpolant)
    (h : Calculate IPREC u Ei Ef rnd = .ok (v, u1)) : MemoConsistent u1 := by
  obtain ⟨table, htab, hu1⟩ := Calculate_ok_state IPREC u Ei Ef rnd v u1 h
  intro t ht
  rw [hu1] at ht ⊢
  have ht2 : u.interpolant_ = some t := ht
  rw [htab] at ht2
  have htt : table = t := Option.some.inj ht2
  rw [← htt]

/-- A successful `GetUpperLimit` preserves the memo invariant. -/
theorem GetUpperLimit_ok_memoConsistent (IPREC : ℚ) (u : UtilityInterpolant)
    (Ei rnd v : ℚ) (u1 : UtilityInterpolant) (hmemo : MemoConsistent u)
    (h : GetUpperLimit IPREC u Ei rnd = .ok (v, u1)) : MemoConsistent u1 := by
  unfold GetUpperLimit at h
  by_cases hr : rnd ≥ 0
  · rw [if_neg (not_not.mpr hr)] at h
    by_cases hhit : Ei = u.upper_limit.2
    · simp only [ne_eq, hhit, not_true_eq_false, if_false] at h
      cases htab : u.interpolant_ with
      | none =>
        rw [htab] at h
        cases h
      | some table =>
        rw [htab] at h
        simp only at h
        split at h
        · obtain ⟨_, h4⟩ := Prod.mk.inj (Except.ok.inj h)
          rw [← h4]
          exact hmemo
        · obtain ⟨_, h4⟩ := Prod.mk.inj (Except.ok.inj h)
          rw [← h4]
          exact hmemo
    · rw [if_pos hhit] at h
      cases hcalc : Calculate IPREC u Ei u.lower_lim rnd with
      | error e =>
        rw [hcalc] at h
        cases h
      | ok p =>
        obtain ⟨w, u2⟩ := p
        have hm2 := Calculate_ok_memoConsistent IPREC u Ei u.lower_lim rnd w u2 hcalc
        rw [hcalc] at h
        simp only at h
        cases htab : u2.interpolant_ with
        | none =>
          rw [htab] at h
          cases h
        | some table =>
          rw [htab] at h
          simp only at h
          split at h
          · obtain ⟨_, h4⟩ := Prod.mk.inj (Except.ok.inj h)
            rw [← h4]
            exact hm2
          · obtain ⟨_, h4⟩ := Prod.mk.inj (Except.ok.inj h)
            rw [← h4]
            exact hm2
  · rw [if_pos hr] at h
    cases h

/-- A sequence of successful `Calculate` and `GetUpperLimit` calls preserves the
memo invariant. -/
theorem afterCalls_memoConsistent (IPREC : ℚ) (calls : List Call) :
    ∀ (u u' : UtilityInterpolant), MemoConsistent u →
      (∀ call ∈ calls, call.isBuildTables = false) →
      afterCalls IPREC u calls = .ok u' → MemoConsistent u' := by
  induction calls with
  | nil =>
    intro u u' hmemo _ h
    have h3 := Except.ok.inj h
    rw [← h3]
    exact hmemo
  | cons call rest ih =>
    intro u u' hmemo hno h
    have hrest : ∀ c ∈ rest, c.isBuildTables = false :=
      fun c hc => hno c (List.mem_cons_of_mem _ hc)
    have hcall : call.isBuildTables = false := hno call (List.mem_cons_self _ _)
    unfold afterCalls at h
    cases call with
    | BuildTables table => simp [Call.isBuildTables] at hcall
    | Calculate Ei Ef rnd =>
      simp only [afterCall] at h
      cases hcalc : Calculate IPREC u Ei Ef rnd with
      | error e =>
        rw [hcalc] at h
        cases h
      | ok p =>
        obtain ⟨w, u2⟩ := p
        rw [hcalc] at h
        exact ih u2 u' (Calculate_ok_memoConsistent IPREC u Ei Ef rnd w u2 hcalc) hrest h
    | GetUpperLimit Ei rnd =>
      simp only [afterCall] at h
      cases hget : GetUpperLimit IPREC u Ei rnd with
      | error e =>
        rw [hget] at h
        cases h
      | ok p =>
        obtain ⟨w, u2⟩ := p
        rw [hget] at h
        exact ih u2 u' (GetUpperLimit_ok_memoConsistent IPREC u Ei rnd w u2 hmemo hget)
          hrest h

/-- C23 fails for `BuildTables`.  On the sample interpolant (identity table,
`IPREC = 1e-6`) the call `Calculate(10, 5, _)` succeeds and leaves the consistent
memo `(10, 10)`; a following `BuildTables` that installs the table `x ↦ -x`
keeps that memo, which no longer agrees with the installed table (`-10` at
`10`).  The next `GetUpperLimit(10, 1)` then inverts the stale value:
it returns `FindLimit(10 - 1) = -9`. -/
theorem BuildTables_breaks_memo_consistency :
    Calculate (1 / 1000000) sampleUtility 10 5 0 =
      .ok (5, { sampleUtility with upper_limit := (10, 10) }) ∧
    MemoConsistent { sampleUtility with upper_limit := (10, 10) } ∧
    afterCalls (1 / 1000000) sampleUtility [.Calculate 10 5 0, .BuildTables negTable] =
      .ok { sampleUtility with upper_limit := (10, 10), interpolant_ := some negTable } ∧
    ¬ MemoConsistent
      { sampleUtility with upper_limit := (10, 10), interpolant_ := some negTable } ∧
    GetUpperLimit (1 / 1000000)
        { sampleUtility with upper_limit := (10, 10), interpolant_ := some negTable }
        10 1 =
      .ok (-9, { sampleUtility with
                  upper_limit := (10, 10), interpolant_ := some negTable }) ∧
    negTable.FindLimit (negTable.Interpolate 10 - 1) = 11 := by
  have hcalc : Calculate (1 / 1000000) sampleUtility 10 5 0 =
      .ok (5, { sampleUtility with upper_limit := (10, 10) }) := by
    rw [Calculate_unfold (1 / 1000000) sampleUtility idTable 10 5 0 rfl (by norm_num)
      (by norm_num [sampleUtility]), if_neg (by norm_num)]
    norm_num [idTable]
  refine ⟨hcalc, ?_, ?_, ?_, ?_, by norm_num [negTable]⟩
  · exact Calculate_ok_memoConsistent _ _ _ _ _ _ _ hcalc
  · simp only [afterCalls, afterCall, hcalc, BuildTables]
  · intro h
    have h2 := h negTable rfl
    norm_num [negTable] at h2
  · unfold GetUpperLimit
    norm_num [negTable, sampleUtility]

/-- C23, amended: a successful `Calculate` establishes the memo invariant
`value = Interpolate(energy)` for the installed table, a successful
`GetUpperLimit` preserves it, and so does every sequence of successful
`Calculate` and `GetUpperLimit` calls; `BuildTables` preserves it when the table
it installs returns the memo value at the memo energy. -/
theorem memo_consistency_preserved (IPREC : ℚ) (u : UtilityInterpolant) :
    (∀ (Ei Ef rnd v : ℚ) (u1 : UtilityInterpolant),
      Calculate IPREC u Ei Ef rnd = .ok (v, u1) → MemoConsistent u1) ∧
    (∀ (Ei rnd v : ℚ) (u1 : UtilityInterpolant), MemoConsistent u →
      GetUpperLimit IPREC u Ei rnd = .ok (v, u1) → MemoConsistent u1) ∧
    (∀ (calls : List Call) (u1 : UtilityInterpolant), MemoConsistent u →
      (∀ call ∈ calls, call.isBuildTables = false) →
      afterCalls IPREC u calls = .ok u1 → MemoConsistent u1) ∧
    (∀ table : Interpolant, u.upper_limit.1 = table.Interpolate u.upper_limit.2 →
      MemoConsistent (u.BuildTables table)) := by
  refine ⟨?_, ?_, ?_, ?_⟩
  · intro Ei Ef rnd v u1 h
    exact Calculate_ok_memoConsistent IPREC u Ei Ef rnd v u1 h
  · intro Ei rnd v u1 hmemo h
    exact GetUpperLimit_ok_memoConsistent IPREC u Ei rnd v u1 hmemo h
  · intro calls u1 hmemo hno h
    exact afterCalls_memoConsistent IPREC calls u u1 hmemo hno h
  · intro table h t ht
    have htt : table = t := Option.some.inj ht
    rw [← htt]
    exact h

/-- C23 (amended) on the sample interpolant: after `Calculate(10, 5, _)` and
`GetUpperLimit(10, 5)` the memo is consistent. -/
theorem memo_consistency_preserved_witness :
    MemoConsistent sampleUtility ∧
    (∀ call ∈ [Call.Calculate 10 5 0, Call.GetUpperLimit 10 5],
      call.isBuildTables = false) ∧
    afterCalls (1 / 1000000) sampleUtility [.Calculate 10 5 0, .GetUpperLimit 10 5] =
      .ok { sampleUtility with upper_limit := (10, 10) } ∧
    MemoConsistent { sampleUtility with upper_limit := (10, 10) } := by
  have hcalc : Calculate (1 / 1000000) sampleUtility 10 5 0 =
      .ok (5, { sampleUtility with upper_limit := (10, 10) }) := by
    rw [Calculate_unfold (1 / 1000000) sampleUtility idTable 10 5 0 rfl (by norm_num)
      (by norm_num [sampleUtility]), if_neg (by norm_num)]
    norm_num [idTable]
  have hno : ∀ call ∈ [Call.Calculate 10 5 0, Call.GetUpperLimit 10 5],
      call.isBuildTables = false := by
    intro call hc
    simp only [List.mem_cons, List.mem_singleton, List.not_mem_nil, or_false] at hc
    rcases hc with hc | hc <;> rw [hc] <;> rfl
  have hrun : afterCalls (1 / 1000000) sampleUtility
      [.Calculate 10 5 0, .GetUpperLimit 10 5] =
      .ok { sampleUtility with upper_limit := (10, 10) } := by
    simp only [afterCalls, afterCall, hcalc]
    unfold GetUpperLimit
    norm_num [idTable, sampleUtility]
  exact ⟨sampleUtility_memoConsistent, hno, hrun,
    (memo_consistency_preserved (1 / 1000000) sampleUtility).2.2.1 _ _
      sampleUtility_memoConsistent hno hrun⟩

end UtilityInterpolant
end PROPOSAL

/-! ## Theorems: registries as constructed -/

namespace PROPOSAL

/-- The enum-to-constructor map of the photo-angle registry of the singleton. -/
theorem PhotoPairFactory.Get_photo_angle_map_enum :
    PhotoPairFactory.Get.photo_angle_map_enum_ =
      [(.PhotoAngleTsaiIntegral, PhotoAngleTsaiIntegral.create),
        (.PhotoAngleNoDeflection, PhotoAngleNoDeflection.create),
        (.PhotoAngleEGS, PhotoAngleEGS.create)] := by
  simp [PhotoPairFactory.Get, PhotoPairFactory.PhotoPairFactory,
    PhotoPairFactory.RegisterPhotoAngle, PhotoPairFactory.Register,
    PhotoPairFactory.empty, mapAssign]

/-- The last state of the constructor is the constructed factory. -/
theorem PhotoPairFactory.constructorStates_last :
    PhotoPairFactory.constructorStates.getLast? = some PhotoPairFactory.Get := rfl

/-- The last state of the constructor is the constructed factory. -/
theorem WeakInteractionFactory.constructorStates_weak_last :
    WeakInteractionFactory.constructorStates.getLast? = some WeakInteractionFactory.Get :=
  rfl

/-- C29: in the registry as constructed, for every name `n` whose lower-cased
form is registered (any letter case) the name maps to an enum, the name map and
the enum map hold the same constructor for `n` and for that enum, and
`CreatePhotoAngleDistribution(n, particle, medium)` and
`CreatePhotoAngleDistribution(GetPhotoAngleEnumFromString(n), particle, medium)`
return the object built by that constructor; and after every `Register` /
`RegisterPhotoAngle` done by the constructors the registered names, the
registered enums and the name/enum pairs are in one-to-one correspondence. -/
theorem photo_angle_by_name_equals_by_enum :
    (∀ (n : String) (particle_def : ParticleDef) (medium : Medium),
      (mapFind PhotoPairFactory.Get.photo_angle_map_str_ (name_lower n)).isSome = true →
      ∃ a create,
        PhotoPairFactory.Get.GetPhotoAngleEnumFromString n = .ok a ∧
        mapFind PhotoPairFactory.Get.photo_angle_map_str_ (name_lower n) = some create ∧
        mapFind PhotoPairFactory.Get.photo_angle_map_enum_ a = some create ∧
        PhotoPairFactory.Get.CreatePhotoAngleDistribution n particle_def medium
          = .ok (create particle_def medium) ∧
        PhotoPairFactory.Get.CreatePhotoAngleDistributionByEnum a particle_def medium
          = .ok (create particle_def medium)) ∧
    (∀ f ∈ PhotoPairFactory.constructorStates, f.InCorrespondence) ∧
    PhotoPairFactory.constructorStates.getLast? = some PhotoPairFactory.Get ∧
    (∀ f ∈ WeakInteractionFactory.constructorStates, f.InCorrespondence) ∧
    WeakInteractionFactory.constructorStates.getLast?
      = some WeakInteractionFactory.Get := by
  refine ⟨?_, ?_, rfl, ?_, rfl⟩
  · intro n particle_def medium h
    unfold PhotoPairFactory.GetPhotoAngleEnumFromString
      PhotoPairFactory.CreatePhotoAngleDistribution
      PhotoPairFactory.CreatePhotoAngleDistributionByEnum
    rw [PhotoPairFactory.Get_photo_angle_map_str] at h ⊢
    rw [PhotoPairFactory.Get_photo_angle_map_enum, PhotoPairFactory.Get_photo_angle_left]
    by_cases h1 : "photoangletsaiintegral" = name_lower n
    · refine ⟨.PhotoAngleTsaiIntegral, PhotoAngleTsaiIntegral.create, ?_⟩
      rw [← h1]
      exact ⟨rfl, rfl, rfl, rfl, rfl⟩
    · by_cases h2 : "photoanglenodeflection" = name_lower n
      · refine ⟨.PhotoAngleNoDeflection, PhotoAngleNoDeflection.create, ?_⟩
        rw [← h2]
        exact ⟨rfl, rfl, rfl, rfl, rfl⟩
      · by_cases h3 : "photoangleegs" = name_lower n
        · refine ⟨.PhotoAngleEGS, PhotoAngleEGS.create, ?_⟩
          rw [← h3]
          exact ⟨rfl, rfl, rfl, rfl, rfl⟩
        · simp [mapFind, h1, h2, h3] at h
  · intro f hf
    simp only [PhotoPairFactory.constructorStates, List.mem_cons, List.mem_singleton,
      List.not_mem_nil, or_false] at hf
    rcases hf with hf | hf | hf | hf <;> subst hf <;>
      exact ⟨⟨by decide, by decide, by decide, by decide, by decide⟩,
        ⟨by decide, by decide, by decide, by decide, by decide⟩⟩
  · intro f hf
    simp only [WeakInteractionFactory.constructorStates, List.mem_singleton] at hf
    subst hf
    exact ⟨by decide, by decide, by decide, by decide, by decide⟩

/-- C29 at the name `"PhotoAngleEGS"`. -/
theorem photo_angle_by_name_equals_by_enum_witness :
    (mapFind PhotoPairFactory.Get.photo_angle_map_str_
        (name_lower "PhotoAngleEGS")).isSome = true ∧
    (∃ a create,
        PhotoPairFactory.Get.GetPhotoAngleEnumFromString "PhotoAngleEGS" = .ok a ∧
        mapFind PhotoPairFactory.Get.photo_angle_map_str_ (name_lower "PhotoAngleEGS")
          = some create ∧
        mapFind PhotoPairFactory.Get.photo_angle_map_enum_ a = some create ∧
        PhotoPairFactory.Get.CreatePhotoAngleDistribution "PhotoAngleEGS" sampleParticle
          sampleMedium = .ok (create sampleParticle sampleMedium) ∧
        PhotoPairFactory.Get.CreatePhotoAngleDistributionByEnum a sampleParticle
          sampleMedium = .ok (create sampleParticle sampleMedium)) :=
  ⟨by decide,
    photo_angle_by_name_equals_by_enum.1 "PhotoAngleEGS" sampleParticle sampleMedium
      (by decide)⟩

/-! ### C30: a name registered with an upper-case letter -/

/-- A name that changes under lower-casing differs from its lower-cased form. -/
theorem name_lower_ne_of_changes (n : String)
    (hn : n.data.map Char.toLower ≠ n.data) : n ≠ name_lower n := by
  intro h
  apply hn
  have h2 : (name_lower n).data = n.data := by rw [← h]
  rw [name_lower_data] at h2
  exact h2

/-- C30: `Register` stores the name as given and `GetEnumFromString` searches
for the lower-cased query.  For every name `n` that lower-casing changes,
registered into an otherwise empty registry, `GetEnumFromString(q)` fails for
every query `q` equal to `n` after lower-casing both, and for `q = n` itself;
in `PhotoPairFactory` and in `WeakInteractionFactory`. -/
theorem uppercase_registered_name_unreachable (n q : String)
    (enum_t : PhotoPairFactory.Enum) (create : PhotoPairFactory.RegisterFunction)
    (enum_w : WeakInteractionFactory.Enum)
    (create_w : WeakInteractionFactory.RegisterFunction)
    (hn : n.data.map Char.toLower ≠ n.data)
    (hq : q.data.map Char.toLower = n.data.map Char.toLower) :
    (PhotoPairFactory.empty.Register n enum_t create).GetEnumFromString q
      = .error .configurationError ∧
    (PhotoPairFactory.empty.Register n enum_t create).GetEnumFromString n
      = .error .configurationError ∧
    (WeakInteractionFactory.empty.Register n enum_w create_w).GetEnumFromString q
      = .error .configurationError ∧
    (WeakInteractionFactory.empty.Register n enum_w create_w).GetEnumFromString n
      = .error .configurationError := by
  have hne : n ≠ name_lower n := name_lower_ne_of_changes n hn
  have hql : name_lower q = name_lower n := name_lower_congr q n hq
  have hpleft : (PhotoPairFactory.empty.Register n enum_t create).string_enum_.GetLeft
      = [(n, enum_t)] := rfl
  have hwleft :
      (WeakInteractionFactory.empty.Register n enum_w create_w).string_enum_.GetLeft
      = [(n, enum_w)] := rfl
  have hp : ∀ x : String, name_lower x = name_lower n →
      (PhotoPairFactory.empty.Register n enum_t create).GetEnumFromString x
        = .error .configurationError := by
    intro x hx
    unfold PhotoPairFactory.GetEnumFromString
    rw [hpleft, hx]
    simp only [mapFind, if_neg hne]
    rfl
  have hw : ∀ x : String, name_lower x = name_lower n →
      (WeakInteractionFactory.empty.Register n enum_w create_w).GetEnumFromString x
        = .error .configurationError := by
    intro x hx
    unfold WeakInteractionFactory.GetEnumFromString
    rw [hwleft, hx]
    simp only [mapFind, if_neg hne]
    rfl
  exact ⟨hp q hql, hp n rfl, hw q hql, hw n rfl⟩

/-- C30 at the name `"PhotoPairTsai"` and the query `"photopairtsai"`. -/
theorem uppercase_registered_name_unreachable_witness :
    "PhotoPairTsai".data.map Char.toLower ≠ "PhotoPairTsai".data ∧
    "photopairtsai".data.map Char.toLower = "PhotoPairTsai".data.map Char.toLower ∧
    ((PhotoPairFactory.empty.Register "PhotoPairTsai" .Tsai
        PhotoPairTsai.create).GetEnumFromString "photopairtsai"
      = .error .configurationError ∧
    (PhotoPairFactory.empty.Register "PhotoPairTsai" .Tsai
        PhotoPairTsai.create).GetEnumFromString "PhotoPairTsai"
      = .error .configurationError ∧
    (WeakInteractionFactory.empty.Register "PhotoPairTsai" .CooperSarkarMertsch
        WeakCooperSarkarMertsch.create).GetEnumFromString "photopairtsai"
      = .error .configurationError ∧
    (WeakInteractionFactory.empty.Register "PhotoPairTsai" .CooperSarkarMertsch
        WeakCooperSarkarMertsch.create).GetEnumFromString "PhotoPairTsai"
      = .error .configurationError) :=
  ⟨by decide, by decide,
    uppercase_registered_name_unreachable "PhotoPairTsai" "photopairtsai" .Tsai
      PhotoPairTsai.create .CooperSarkarMertsch WeakCooperSarkarMertsch.create
      (by decide) (by decide)⟩

end PROPOSAL
